import Mathlib

/-!
Verification of the tsql-interpreter repository.

The development shallowly embeds the parts of the repository that the
statements below are about:

* `src/sql_lexer/src/keyword.rs` — the reserved-word table, `lookup_keyword`
  and the `fmt::Display` implementation for `Keyword`;
* `src/sql_parser/src/lexer_new.rs` — the span-producing lexer (the newer
  lexer generation);
* `src/sql_parser/src/lib.rs` — the precedence-climbing parser (the older
  parser generation that lives in that file);
* `src/sql_parser/src/ast/expressions.rs` — the newer AST generation, its
  operator conversions and `Display` implementations.

Rust `&str` values are embedded as `List Char` (the sequence of Unicode
scalar values) or as `String` where convenient; machine integers (`u32`,
`usize`) are embedded as `Nat`, with an explicit `% 2 ^ 32` at the single
place the source casts a `usize` to `u32`.  Fallible code returns `Option`
or `Except`; a Rust panic is modelled as the `none` of an outer `Option`
layer.  Recursive procedures whose Rust form is a `while` loop or a set of
mutually recursive methods are given an explicit fuel argument.
-/

set_option maxHeartbeats 1000000
set_option maxRecDepth 10000

deriving instance DecidableEq for Except

namespace Tsql

/-! ## The keyword table (`src/sql_lexer/src/keyword.rs`)

The `define_keywords!` macro expands to the enum `Keyword`, the array
`ALL_KEYWORDS_INDEX` of enum values in declaration order, and the array
`ALL_KEYWORDS` of their spellings, in exactly the order the source lists
them (the source comment claims this order is alphabetical). -/

/-- The `Keyword` enum, one constructor per reserved word, in the exact
order of `define_keywords!` in `src/sql_lexer/src/keyword.rs`. -/
inductive Keyword where
  | ABS | ACOS | ALL | ALTER | AND | ANY | AS | ASC | ASIN | ATAN
  | AUTOINCREMENT | AVG | BEGIN | BETWEEN | BIGINT | BIT | BY | CASCADE
  | CASE | CAST | CEIL | CEILING | CHAR | COLUMN | COLUMNS | COMMIT
  | COMMITED | CONSTRAINT | COS | COT | COUNT | CREATE | CURRENT | DATE
  | DATETIME | DAY | DAYOFWEEK | DAYOFYEAR | DECIMAL | DECLARE | DEGREES
  | DEFAULT | DELETE | DENSE_RANK | DESC | DESCRIBE | DISTINCT | DO | DROP
  | ELSE | END | ENGINE | EXEC | EXECUTE | EXISTS | EXP | FALSE | FETCH
  | FIRST | FIRST_VALUE | FLOAT | FLOOR | FOLLOWING | FOREIGN | FROM | FULL
  | FUNCTION | GETDATE | GROUP | HAVING | HOUR | HOURS | IDENTITY | IF | IN
  | INCREMENT | INDEX | INNER | INSERT | INTEGER | INTERSECT | INT | INTO
  | IS | JOIN | KEY | LAG | LAST | LAST_VALUE | LEAD | LEFT | LIKE | LIMIT
  | LOG | LOG10 | MAX | MICROSECOND | MICROSECONDS | MILLISECOND
  | MILLISECONDS | MIN | MINUTE | MONTH | NANOSECOND | NANOSECONDS | NCHAR
  | NEXT | NOT | NULL | NULLIF | NUMERIC | NVARCHAR | OFFSET | ON | ONLY
  | OR | ORDER | OUTER | OVER | PARTITION | PASSWORD | PERCENT | PI | POWER
  | PRECEDING | PROCEDURE | RADIANS | RANDS | RANGE | RANK | REAL | RETURN
  | RETURNS | REVOKE | RIGHT | ROLE | ROLLBACK | ROUND | ROW | ROWID | ROWS
  | ROW_NUMBER | SECOND | SELECT | SET | SIGN | SIN | SMALLINT | SNAPSHOT
  | SOME | SQRT | SQUARE | STAGE | START | STATISTICS | STDEV | STDEVP
  | SUM | TABLE | TAN | TEMP | THEN | TIES | TIME | TINYINT | TOP
  | TRANSACTION | TRIGGER | TRUE | TRUNCATE | UNBOUNDED | UNCOMMITTED
  | UNION | UNIQUE | UNLOCK | UPDATE | UPPER | USE | USER | UUID | VALUE
  | VALUES | VARBINARY | VARCHAR | VAR | VARP | WEEK | WHEN | WHERE
  | WINDOW | WITH | YEAR
  deriving DecidableEq, Repr

/-- `ALL_KEYWORDS`: the spelling array, in source order. -/
def ALL_KEYWORDS : List String :=
  ["ABS", "ACOS", "ALL", "ALTER", "AND", "ANY", "AS", "ASC", "ASIN", "ATAN",
   "AUTOINCREMENT", "AVG", "BEGIN", "BETWEEN", "BIGINT", "BIT", "BY",
   "CASCADE", "CASE", "CAST", "CEIL", "CEILING", "CHAR", "COLUMN", "COLUMNS",
   "COMMIT", "COMMITED", "CONSTRAINT", "COS", "COT", "COUNT", "CREATE",
   "CURRENT", "DATE", "DATETIME", "DAY", "DAYOFWEEK", "DAYOFYEAR", "DECIMAL",
   "DECLARE", "DEGREES", "DEFAULT", "DELETE", "DENSE_RANK", "DESC",
   "DESCRIBE", "DISTINCT", "DO", "DROP", "ELSE", "END", "ENGINE", "EXEC",
   "EXECUTE", "EXISTS", "EXP", "FALSE", "FETCH", "FIRST", "FIRST_VALUE",
   "FLOAT", "FLOOR", "FOLLOWING", "FOREIGN", "FROM", "FULL", "FUNCTION",
   "GETDATE", "GROUP", "HAVING", "HOUR", "HOURS", "IDENTITY", "IF", "IN",
   "INCREMENT", "INDEX", "INNER", "INSERT", "INTEGER", "INTERSECT", "INT",
   "INTO", "IS", "JOIN", "KEY", "LAG", "LAST", "LAST_VALUE", "LEAD", "LEFT",
   "LIKE", "LIMIT", "LOG", "LOG10", "MAX", "MICROSECOND", "MICROSECONDS",
   "MILLISECOND", "MILLISECONDS", "MIN", "MINUTE", "MONTH", "NANOSECOND",
   "NANOSECONDS", "NCHAR", "NEXT", "NOT", "NULL", "NULLIF", "NUMERIC",
   "NVARCHAR", "OFFSET", "ON", "ONLY", "OR", "ORDER", "OUTER", "OVER",
   "PARTITION", "PASSWORD", "PERCENT", "PI", "POWER", "PRECEDING",
   "PROCEDURE", "RADIANS", "RANDS", "RANGE", "RANK", "REAL", "RETURN",
   "RETURNS", "REVOKE", "RIGHT", "ROLE", "ROLLBACK", "ROUND", "ROW", "ROWID",
   "ROWS", "ROW_NUMBER", "SECOND", "SELECT", "SET", "SIGN", "SIN",
   "SMALLINT", "SNAPSHOT", "SOME", "SQRT", "SQUARE", "STAGE", "START",
   "STATISTICS", "STDEV", "STDEVP", "SUM", "TABLE", "TAN", "TEMP", "THEN",
   "TIES", "TIME", "TINYINT", "TOP", "TRANSACTION", "TRIGGER", "TRUE",
   "TRUNCATE", "UNBOUNDED", "UNCOMMITTED", "UNION", "UNIQUE", "UNLOCK",
   "UPDATE", "UPPER", "USE", "USER", "UUID", "VALUE", "VALUES", "VARBINARY",
   "VARCHAR", "VAR", "VARP", "WEEK", "WHEN", "WHERE", "WINDOW", "WITH",
   "YEAR"]

/-- `ALL_KEYWORDS_INDEX`: the enum-value array, in the same source order. -/
def ALL_KEYWORDS_INDEX : List Keyword :=
  [Keyword.ABS, Keyword.ACOS, Keyword.ALL, Keyword.ALTER, Keyword.AND, Keyword.ANY, Keyword.AS, Keyword.ASC, Keyword.ASIN, Keyword.ATAN,
   Keyword.AUTOINCREMENT, Keyword.AVG, Keyword.BEGIN, Keyword.BETWEEN, Keyword.BIGINT, Keyword.BIT, Keyword.BY, Keyword.CASCADE,
   Keyword.CASE, Keyword.CAST, Keyword.CEIL, Keyword.CEILING, Keyword.CHAR, Keyword.COLUMN, Keyword.COLUMNS, Keyword.COMMIT,
   Keyword.COMMITED, Keyword.CONSTRAINT, Keyword.COS, Keyword.COT, Keyword.COUNT, Keyword.CREATE, Keyword.CURRENT, Keyword.DATE,
   Keyword.DATETIME, Keyword.DAY, Keyword.DAYOFWEEK, Keyword.DAYOFYEAR, Keyword.DECIMAL, Keyword.DECLARE, Keyword.DEGREES,
   Keyword.DEFAULT, Keyword.DELETE, Keyword.DENSE_RANK, Keyword.DESC, Keyword.DESCRIBE, Keyword.DISTINCT, Keyword.DO, Keyword.DROP,
   Keyword.ELSE, Keyword.END, Keyword.ENGINE, Keyword.EXEC, Keyword.EXECUTE, Keyword.EXISTS, Keyword.EXP, Keyword.FALSE, Keyword.FETCH,
   Keyword.FIRST, Keyword.FIRST_VALUE, Keyword.FLOAT, Keyword.FLOOR, Keyword.FOLLOWING, Keyword.FOREIGN, Keyword.FROM, Keyword.FULL,
   Keyword.FUNCTION, Keyword.GETDATE, Keyword.GROUP, Keyword.HAVING, Keyword.HOUR, Keyword.HOURS, Keyword.IDENTITY, Keyword.IF, Keyword.IN,
   Keyword.INCREMENT, Keyword.INDEX, Keyword.INNER, Keyword.INSERT, Keyword.INTEGER, Keyword.INTERSECT, Keyword.INT, Keyword.INTO,
   Keyword.IS, Keyword.JOIN, Keyword.KEY, Keyword.LAG, Keyword.LAST, Keyword.LAST_VALUE, Keyword.LEAD, Keyword.LEFT, Keyword.LIKE, Keyword.LIMIT,
   Keyword.LOG, Keyword.LOG10, Keyword.MAX, Keyword.MICROSECOND, Keyword.MICROSECONDS, Keyword.MILLISECOND,
   Keyword.MILLISECONDS, Keyword.MIN, Keyword.MINUTE, Keyword.MONTH, Keyword.NANOSECOND, Keyword.NANOSECONDS, Keyword.NCHAR,
   Keyword.NEXT, Keyword.NOT, Keyword.NULL, Keyword.NULLIF, Keyword.NUMERIC, Keyword.NVARCHAR, Keyword.OFFSET, Keyword.ON, Keyword.ONLY,
   Keyword.OR, Keyword.ORDER, Keyword.OUTER, Keyword.OVER, Keyword.PARTITION, Keyword.PASSWORD, Keyword.PERCENT, Keyword.PI, Keyword.POWER,
   Keyword.PRECEDING, Keyword.PROCEDURE, Keyword.RADIANS, Keyword.RANDS, Keyword.RANGE, Keyword.RANK, Keyword.REAL, Keyword.RETURN,
   Keyword.RETURNS, Keyword.REVOKE, Keyword.RIGHT, Keyword.ROLE, Keyword.ROLLBACK, Keyword.ROUND, Keyword.ROW, Keyword.ROWID, Keyword.ROWS,
   Keyword.ROW_NUMBER, Keyword.SECOND, Keyword.SELECT, Keyword.SET, Keyword.SIGN, Keyword.SIN, Keyword.SMALLINT, Keyword.SNAPSHOT,
   Keyword.SOME, Keyword.SQRT, Keyword.SQUARE, Keyword.STAGE, Keyword.START, Keyword.STATISTICS, Keyword.STDEV, Keyword.STDEVP,
   Keyword.SUM, Keyword.TABLE, Keyword.TAN, Keyword.TEMP, Keyword.THEN, Keyword.TIES, Keyword.TIME, Keyword.TINYINT, Keyword.TOP,
   Keyword.TRANSACTION, Keyword.TRIGGER, Keyword.TRUE, Keyword.TRUNCATE, Keyword.UNBOUNDED, Keyword.UNCOMMITTED,
   Keyword.UNION, Keyword.UNIQUE, Keyword.UNLOCK, Keyword.UPDATE, Keyword.UPPER, Keyword.USE, Keyword.USER, Keyword.UUID, Keyword.VALUE,
   Keyword.VALUES, Keyword.VARBINARY, Keyword.VARCHAR, Keyword.VAR, Keyword.VARP, Keyword.WEEK, Keyword.WHEN, Keyword.WHERE,
   Keyword.WINDOW, Keyword.WITH, Keyword.YEAR]

/-- Position of a `Keyword` constructor in declaration order; this is the
value Rust's `#[derive(Ord)]` compares by. -/
def Keyword.ctorIdx (k : Keyword) : Nat :=
  (ALL_KEYWORDS_INDEX.indexOf k)

/-- Rust's derived `Ord` on the `Keyword` enum: comparison of declaration
indices. -/
def Keyword.cmp (a b : Keyword) : Ordering :=
  compare a.ctorIdx b.ctorIdx

/-- Byte-wise comparison of two Rust `&str` values.  UTF-8 encodes larger
scalar values with byte sequences that compare larger, so byte-wise
lexicographic order on the encodings coincides with lexicographic order on
the scalar-value sequences, which is what this computes. -/
def strBytesCmp : List Char → List Char → Ordering
  | [], [] => .eq
  | [], _ :: _ => .lt
  | _ :: _, [] => .gt
  | a :: as, b :: bs =>
    match compare a.val b.val with
    | .eq => strBytesCmp as bs
    | o => o

/-- The loop of `slice::binary_search_by`, with an explicit step budget so
that the definition is structurally recursive (each iteration shrinks the
window `right - left` by at least one, so a budget of `right - left + 1`
steps — which `rustBinarySearch` supplies — is never exhausted). -/
def rustBinarySearchGo (xs : List α) (f : α → Ordering) :
    Nat → Nat → Nat → Option Nat
  | 0, _, _ => none
  | fuel + 1, left, right =>
    if left < right then
      let mid := left + (right - left) / 2
      match xs.get? mid with
      | none => none
      | some x =>
        match f x with
        | .lt => rustBinarySearchGo xs f fuel (mid + 1) right
        | .gt => rustBinarySearchGo xs f fuel left mid
        | .eq => some mid
    else none

/-- `slice::binary_search_by` from Rust's standard library (the
implementation shipped since Rust 1.52): probe the midpoint of `[left,
right)`, narrow on `Less`/`Greater`, return `Ok(mid)` on `Equal`, `Err(left)`
when the window empties.  `f` is `|probe| probe.cmp(key)`.  Only the
found/not-found distinction is consumed by the repository, so the model
returns `some index` for `Ok(index)` and `none` for `Err(_)`. -/
def rustBinarySearch (xs : List α) (f : α → Ordering) (left right : Nat) :
    Option Nat :=
  rustBinarySearchGo xs f (right - left + 1) left right

/-- `str::to_uppercase`, restricted to ASCII (every spelling in the keyword
table and every input used in a theorem below is ASCII, where Rust's Unicode
uppercasing agrees with per-character ASCII uppercasing). -/
def rustToUppercase (s : List Char) : List Char :=
  s.map Char.toUpper

/-- `lookup_keyword` from `src/sql_lexer/src/keyword.rs`: uppercase the
query, binary-search `ALL_KEYWORDS` for it, and on success index
`ALL_KEYWORDS_INDEX` at the found position. -/
def lookup_keyword (keyword : List Char) : Option Keyword :=
  let normalized := rustToUppercase keyword
  match rustBinarySearch ALL_KEYWORDS
      (fun e => strBytesCmp e.toList normalized) 0 ALL_KEYWORDS.length with
  | some index => ALL_KEYWORDS_INDEX.get? index
  | none => none

/-- The result type of Rust's `fmt` machinery: `fmt::Result` plus the text
written to the formatter so far. -/
structure FmtOutcome where
  written : String
  ok : Bool
  deriving DecidableEq, Repr

/-- `impl fmt::Display for Keyword` from `src/sql_lexer/src/keyword.rs`:
binary-search `ALL_KEYWORDS_INDEX` for `self` (by the derived `Ord`), write
the spelling at the found index, and then — unconditionally — return
`Err(fmt::Error)`. -/
def Keyword.fmtDisplay (k : Keyword) : FmtOutcome :=
  let written :=
    match rustBinarySearch ALL_KEYWORDS_INDEX (fun e => e.cmp k) 0
        ALL_KEYWORDS_INDEX.length with
    | some index => ((ALL_KEYWORDS.get? index).getD "")
    | none => ""
  { written := written, ok := false }

/-! ## Spans and tokens of the newer lexer generation

`src/sql_parser/src/lexer_new.rs` uses `crate::ast::Span` and
`crate::token_new::{Token, TokenKind}`; neither definition is present under
`src/` (the `token_new.rs` that is present holds a stale span-less `Token`
enum), so the two carriers are modelled from the spec. -/

/-- Modelled from the spec: §3 "Span: `{start: u32, end: u32}`, half-open
byte offsets into the original source".  The `end` field is called `stop`
here only because `end` is reserved in Lean.  The definition is absent from
`src/` (it lives in the `ast` module the lexer imports it from). -/
structure Span where
  start : Nat
  stop : Nat
  deriving DecidableEq, Repr

/-- Construction of a `Span` from the two `usize` cursor positions: the
call sites in `next_lex` cast with `as u32`, which truncates; the `% 2 ^ 32`
models that cast. -/
def Span.new (s e : Nat) : Span :=
  ⟨s % 2 ^ 32, e % 2 ^ 32⟩

namespace NewLex

/-- `TokenKind` as used by `src/sql_parser/src/lexer_new.rs` (the
`crate::token_new::TokenKind` it imports is absent from `src/`; the variant
set is modelled from the spec's §3 closed token-kind list and the variant
names used in `lexer_new.rs`).  Borrowed `&str` payloads are embedded as
the scalar-value sequences they denote. -/
inductive TokenKind where
  | Identifier (s : List Char)
  | QuotedIdentifier (s : List Char)
  | StringLiteral (s : List Char)
  | NumberLiteral (s : List Char)
  | LocalVariable (s : List Char)
  | Comment (s : List Char)
  | Keyword (k : Tsql.Keyword)
  | Comma | LeftParen | RightParen
  | Equal | BangEqual | LessThanGreaterThan
  | LessThan | LessThanEqual | GreaterThan | GreaterThanEqual
  | Plus | Minus | ForwardSlash | Asterisk | Percent | Period | SemiColon
  | Eof
  deriving DecidableEq, Repr

/-- Modelled from the spec: §3 "Token: `{kind: TokenKind, span: Span}`". -/
structure Token where
  kind : TokenKind
  span : Span
  deriving DecidableEq, Repr

/-- `LexicalErrorType` from the error module of the newer lexer generation
(the module is absent from `src/`; the three variants are the ones
`lexer_new.rs` constructs, which are also the spec's §7 lexical-error
family). -/
inductive LexicalErrorType where
  | UnexpectedQuotedIdentifierEnd
  | UnexpectedStringEnd
  | UnrecognizedToken
  deriving DecidableEq, Repr

/-- `LexicalError { error: ... }` as constructed in `lexer_new.rs`. -/
structure LexicalError where
  error : LexicalErrorType
  deriving DecidableEq, Repr

/-! ### Character classification

The lexer calls Rust's Unicode-aware `char` classifiers.  The models below
agree with Rust exactly on the Basic Latin and Latin-1 blocks (scalar
values `< 0x100`); every character appearing in a theorem below lies in
that range. -/

/-- `char::is_whitespace` (exact on scalar values `< 0x100`): the ASCII
whitespace control characters, space, NEL (U+0085) and NBSP (U+00A0). -/
def rustIsWhitespace (c : Char) : Bool :=
  (0x09 ≤ c.val && c.val ≤ 0x0D) || c.val == 0x20 || c.val == 0x85 ||
    c.val == 0xA0

/-- `char::is_alphabetic` (exact on scalar values `< 0x100`): ASCII
letters, the Latin-1 letters `ª`, `µ`, `º`, and the accented range
`À`–`ÿ` minus the two operators `×` and `÷`. -/
def rustIsAlphabetic (c : Char) : Bool :=
  ('A' ≤ c && c ≤ 'Z') || ('a' ≤ c && c ≤ 'z') ||
    c.val == 0xAA || c.val == 0xB5 || c.val == 0xBA ||
    (0xC0 ≤ c.val && c.val ≤ 0xFF && c.val != 0xD7 && c.val != 0xF7)

/-- `char::is_numeric` (exact on scalar values `< 0x100`): ASCII digits and
the Latin-1 `No` characters `²`, `³`, `¹`, `¼`, `½`, `¾`. -/
def rustIsNumeric (c : Char) : Bool :=
  ('0' ≤ c && c ≤ '9') || c.val == 0xB2 || c.val == 0xB3 || c.val == 0xB9 ||
    c.val == 0xBC || c.val == 0xBD || c.val == 0xBE

/-- `char::is_alphanumeric` = alphabetic or numeric. -/
def rustIsAlphanumeric (c : Char) : Bool :=
  rustIsAlphabetic c || rustIsNumeric c

/-! ### Byte positions and slicing

The lexer's `current_position`/`read_position` count one unit per
`read_char`, i.e. per *character*, but the source slices `self.input`
— a byte-indexed operation — with them, and compares `read_position`
against `self.input.len()` — a byte count.

The cursor itself can be reduced to a single `Nat`: after `k` calls to
`read_char`, `current_position = k - 1` and `read_position = k`.  The
`Peekable<Chars>` iterator has consumed `min(k, byteLen input)` characters
(`next` is only called while `read_position < input.len()`), so because a
string never has more characters than bytes, `self.ch` is the character at
index `current_position` and `self.chars.peek()` the one at
`current_position + 1`, whenever those exist — for every input, ASCII or
not.  The divergence between character counts and byte offsets therefore
surfaces exactly at the slicing sites, which the model makes fallible:
slicing at a byte index that is out of range or not a character boundary is
a Rust panic, embedded as `none`. -/

/-- Width in bytes of the UTF-8 encoding of a scalar value. -/
def csize (c : Char) : Nat :=
  if c.val < 0x80 then 1
  else if c.val < 0x800 then 2
  else if c.val < 0x10000 then 3
  else 4

/-- `str::len`: the byte length of the UTF-8 encoding. -/
def byteLen (s : List Char) : Nat :=
  (s.map csize).sum

/-- Drop `n` leading bytes; `none` when `n` overruns the string or falls
inside a character's encoding (a panicking byte index in Rust). -/
def dropBytes : List Char → Nat → Option (List Char)
  | s, 0 => some s
  | [], _ + 1 => none
  | c :: s, n + 1 =>
    if csize c ≤ n + 1 then dropBytes s (n + 1 - csize c) else none

/-- Take `n` leading bytes; `none` when `n` overruns the string or falls
inside a character's encoding. -/
def takeBytes : List Char → Nat → Option (List Char)
  | _, 0 => some []
  | [], _ + 1 => none
  | c :: s, n + 1 =>
    if csize c ≤ n + 1 then (takeBytes s (n + 1 - csize c)).map (c :: ·)
    else none

/-- Rust's `&s[a..b]`: defined when `a ≤ b`, both indices are character
boundaries, and `b` is within the byte length; otherwise a panic (`none`).
-/
def byteSlice (s : List Char) (a b : Nat) : Option (List Char) :=
  if a ≤ b then (dropBytes s a).bind (fun t => takeBytes t (b - a))
  else none

/-! ### The lexer (`src/sql_parser/src/lexer_new.rs`)

The state is the single character position `pos` (`current_position`); the
current character is `input.get? pos` and the lookahead `input.get? (pos +
1)`, per the cursor analysis above. -/

/-- The loop of `skip_whitespace`, structurally recursive on a step budget
(the cursor can advance at most once per remaining character, so the
`input.length - pos` budget the wrapper supplies is exact: the loop always
stops on its own before the budget runs out, because a position past the
end reads `none`). -/
def skip_whitespace_go (input : List Char) : Nat → Nat → Nat
  | 0, pos => pos
  | fuel + 1, pos =>
    match input.get? pos with
    | some c =>
      if rustIsWhitespace c then skip_whitespace_go input fuel (pos + 1)
      else pos
    | none => pos

/-- `skip_whitespace`: advance while the current character is whitespace.
-/
def skip_whitespace (input : List Char) (pos : Nat) : Nat :=
  skip_whitespace_go input (input.length - pos) pos

/-- The loop of `read_identifier`, structurally recursive on a step
budget (see `skip_whitespace_go`). -/
def read_identifier_end_go (input : List Char) : Nat → Nat → Nat
  | 0, pos => pos
  | fuel + 1, pos =>
    match input.get? (pos + 1) with
    | some c =>
      if rustIsAlphanumeric c || c == '_' then
        read_identifier_end_go input fuel (pos + 1)
      else pos
    | none => pos

/-- The final cursor position of `read_identifier`'s loop: advance while
the lookahead is alphanumeric or `_`. -/
def read_identifier_end (input : List Char) (pos : Nat) : Nat :=
  read_identifier_end_go input (input.length - pos) pos

/-- `read_identifier`: scan the identifier body, then slice
`input[start..current_position + 1]` (byte indices).  Returns the slice (or
a panic) and the final cursor position. -/
def read_identifier (input : List Char) (pos : Nat) :
    Option (List Char) × Nat :=
  let e := read_identifier_end input pos
  (byteSlice input pos (e + 1), e)

/-- The shared scan loop of `read_string_literal` and
`read_quoted_identifier`, structurally recursive on a step budget (see
`skip_whitespace_go`). -/
def read_until_go (input : List Char) (q : Char) : Nat → Nat → Nat
  | 0, pos => pos
  | fuel + 1, pos =>
    match input.get? (pos + 1) with
    | some c => if c ≠ q then read_until_go input q fuel (pos + 1) else pos
    | none => pos

/-- The shared scan loop of `read_string_literal` and
`read_quoted_identifier`: advance while the lookahead exists and differs
from the terminator `q`. -/
def read_until (input : List Char) (q : Char) (pos : Nat) : Nat :=
  read_until_go input q (input.length - pos) pos

/-- `read_string_literal`, entered with the cursor on the opening `'`:
step past the quote, scan to the closing quote, then either consume it and
slice `input[start..current_position]`, or report `UnexpectedStringEnd`.
Returns `none` for a panicking slice. -/
def read_string_literal (input : List Char) (pos : Nat) :
    Option (Except LexicalError (List Char)) × Nat :=
  let q := read_until input '\'' (pos + 1)
  if input.get? (q + 1) = some '\'' then
    match byteSlice input (pos + 1) (q + 1) with
    | none => (none, q + 1)
    | some s => (some (.ok s), q + 1)
  else
    (some (.error ⟨.UnexpectedStringEnd⟩), q)

/-- `read_quoted_identifier`, identical to `read_string_literal` with `]`
as terminator and `UnexpectedQuotedIdentifierEnd` as error. -/
def read_quoted_identifier (input : List Char) (pos : Nat) :
    Option (Except LexicalError (List Char)) × Nat :=
  let q := read_until input ']' (pos + 1)
  if input.get? (q + 1) = some ']' then
    match byteSlice input (pos + 1) (q + 1) with
    | none => (none, q + 1)
    | some s => (some (.ok s), q + 1)
  else
    (some (.error ⟨.UnexpectedQuotedIdentifierEnd⟩), q)

/-- The scan loop of `read_comment`: advance while the lookahead exists
and is not a newline, tracking the first and last non-whitespace positions
(`self.ch` after each `read_char` is exactly the character just peeked).
Returns the final cursor position together with `start`, `end` and the
`start_found` flag. -/
def read_comment_loop_go (input : List Char) :
    Nat → Nat → Nat → Nat → Bool → Nat × Nat × Nat × Bool
  | 0, pos, startp, endp, found => (pos, startp, endp, found)
  | fuel + 1, pos, startp, endp, found =>
    match input.get? (pos + 1) with
    | some c =>
      if c ≠ '\n' then
        if ¬ rustIsWhitespace c then
          read_comment_loop_go input fuel (pos + 1)
            (if found then startp else pos + 1) (pos + 1) true
        else
          read_comment_loop_go input fuel (pos + 1) startp endp found
      else (pos, startp, endp, found)
    | none => (pos, startp, endp, found)

/-- Wrapper supplying the exact step budget (see `skip_whitespace_go`). -/
def read_comment_loop (input : List Char) (pos startp endp : Nat)
    (found : Bool) : Nat × Nat × Nat × Bool :=
  read_comment_loop_go input (input.length - pos) pos startp endp found

/-- `read_comment`, entered with the cursor on the second `-`: step onto
the next character, scan to the newline, step onto the newline, and slice
`input[start..end + 1]`.  Returns the slice (or a panic) and the final
cursor position. -/
def read_comment (input : List Char) (pos : Nat) :
    Option (List Char) × Nat :=
  let s0 := pos + 1
  match read_comment_loop input s0 s0 s0 false with
  | (q, startp, endp, _) => (byteSlice input startp (endp + 1), q + 1)

/-- The digit-scan loop of `read_number_literal`, structurally recursive
on a step budget (see `skip_whitespace_go`). -/
def read_number_end_go (input : List Char) : Nat → Nat → Nat
  | 0, pos => pos
  | fuel + 1, pos =>
    match input.get? (pos + 1) with
    | some c =>
      if rustIsNumeric c then read_number_end_go input fuel (pos + 1)
      else pos
    | none => pos

/-- The digit-scan loop of `read_number_literal`: advance while the
lookahead is numeric. -/
def read_number_end (input : List Char) (pos : Nat) : Nat :=
  read_number_end_go input (input.length - pos) pos

/-- `read_number_literal`: scan digits, optionally a `.` and more digits,
then slice `input[start..current_position + 1]`. -/
def read_number_literal (input : List Char) (pos : Nat) :
    Option (List Char) × Nat :=
  let e1 := read_number_end input pos
  if input.get? (e1 + 1) = some '.' then
    let e2 := read_number_end input (e1 + 1)
    (byteSlice input pos (e2 + 1), e2)
  else
    (byteSlice input pos (e1 + 1), e1)

/-- `next_lex`: skip whitespace, then dispatch on the current character;
the guard order is the source's `match` arm order.  Result: `none` for a
panic; otherwise the token or lexical error, paired with the cursor
position after the trailing `read_char`. -/
def next_lex (input : List Char) (pos0 : Nat) :
    Option (Except LexicalError Token × Nat) :=
  let pos := skip_whitespace input pos0
  match input.get? pos with
  | none => some (.ok ⟨.Eof, Span.new pos pos⟩, pos + 1)
  | some ch =>
    let pk := input.get? (pos + 1)
    if ch = ',' then some (.ok ⟨.Comma, Span.new pos pos⟩, pos + 1)
    else if ch = '(' then some (.ok ⟨.LeftParen, Span.new pos pos⟩, pos + 1)
    else if ch = ')' then some (.ok ⟨.RightParen, Span.new pos pos⟩, pos + 1)
    else if ch = '=' then some (.ok ⟨.Equal, Span.new pos pos⟩, pos + 1)
    else if ch = '!' ∧ pk = some '=' then
      some (.ok ⟨.BangEqual, Span.new pos pos⟩, pos + 1)
    else if ch = '<' ∧ pk = some '=' then
      some (.ok ⟨.LessThanEqual, Span.new pos pos⟩, pos + 1)
    else if ch = '>' ∧ pk = some '=' then
      some (.ok ⟨.GreaterThanEqual, Span.new pos pos⟩, pos + 1)
    else if ch = '<' ∧ pk = some '>' then
      some (.ok ⟨.LessThanGreaterThan, Span.new pos pos⟩, pos + 1)
    else if ch = '<' then some (.ok ⟨.LessThan, Span.new pos pos⟩, pos + 1)
    else if ch = '>' then some (.ok ⟨.GreaterThan, Span.new pos pos⟩, pos + 1)
    else if ch = '+' then some (.ok ⟨.Plus, Span.new pos pos⟩, pos + 1)
    else if ch = '-' ∧ pk = some '-' then
      match read_comment input (pos + 1) with
      | (none, _) => none
      | (some s, p2) => some (.ok ⟨.Comment s, Span.new pos p2⟩, p2 + 1)
    else if ch = '-' then some (.ok ⟨.Minus, Span.new pos pos⟩, pos + 1)
    else if ch = '/' then
      some (.ok ⟨.ForwardSlash, Span.new pos pos⟩, pos + 1)
    else if ch = '*' then some (.ok ⟨.Asterisk, Span.new pos pos⟩, pos + 1)
    else if ch = '%' then some (.ok ⟨.Percent, Span.new pos pos⟩, pos + 1)
    else if ch = '.' then some (.ok ⟨.Period, Span.new pos pos⟩, pos + 1)
    else if ch = ';' then some (.ok ⟨.SemiColon, Span.new pos pos⟩, pos + 1)
    else if ch = '[' ∧ pk.any rustIsAlphabetic then
      match read_quoted_identifier input pos with
      | (none, _) => none
      | (some (.ok s), p2) =>
        some (.ok ⟨.QuotedIdentifier s, Span.new pos p2⟩, p2 + 1)
      | (some (.error e), p2) => some (.error e, p2 + 1)
    else if ch = '\'' then
      match read_string_literal input pos with
      | (none, _) => none
      | (some (.ok s), p2) =>
        some (.ok ⟨.StringLiteral s, Span.new pos p2⟩, p2 + 1)
      | (some (.error e), p2) => some (.error e, p2 + 1)
    else if ch = '@' ∧ pk.any rustIsAlphabetic then
      match read_identifier input (pos + 1) with
      | (none, _) => none
      | (some s, e) =>
        some (.ok ⟨.LocalVariable s, Span.new pos e⟩, e + 1)
    else if rustIsAlphabetic ch then
      match read_identifier input pos with
      | (none, _) => none
      | (some s, e) =>
        match lookup_keyword s with
        | some kw => some (.ok ⟨.Keyword kw, Span.new pos e⟩, e + 1)
        | none => some (.ok ⟨.Identifier s, Span.new pos e⟩, e + 1)
    else if ch = '_' ∧ pk.any rustIsAlphabetic then
      match read_identifier input pos with
      | (none, _) => none
      | (some s, e) => some (.ok ⟨.Identifier s, Span.new pos e⟩, e + 1)
    else if rustIsNumeric ch then
      match read_number_literal input pos with
      | (none, _) => none
      | (some s, e) => some (.ok ⟨.NumberLiteral s, Span.new pos e⟩, e + 1)
    else
      some (.error ⟨.UnrecognizedToken⟩, pos + 1)

/-- The `Iterator` instance drained into a list, for runs in which every
item is `Ok`: the iterator stops (yields `None`) at the `Eof` token and
forwards every other result.  `none` here covers a panic, a surfaced
`LexicalError`, and fuel exhaustion — the theorems below all condition on a
`some` result, i.e. on error-free, panic-free runs. -/
def lex_ok_tokens (input : List Char) : Nat → Nat → Option (List Token)
  | 0, _ => none
  | fuel + 1, pos =>
    match next_lex input pos with
    | none => none
    | some (.error _, _) => none
    | some (.ok t, p2) =>
      match t.kind with
      | .Eof => some []
      | _ => (lex_ok_tokens input fuel p2).map (t :: ·)

/-- The lexer's full token sequence for an input, when it lexes without
error or panic (`input.length + 2` steps always reach `Eof`: every
`next_lex` advances the cursor). -/
def lexTokens (input : List Char) : Option (List Token) :=
  lex_ok_tokens input (input.length + 2) 0

end NewLex

/-! ## The older parser generation (`src/sql_parser/src/lib.rs`)

`lib.rs` holds the line/column-era recursive-descent parser.  Its `token`,
`lexer` and `ast` modules are absent from `src/`; the carrier types below
are modelled from the spec and from the uses in `lib.rs` (including its
test module, which spells out the `ast` constructors and fields).  The
parser functions themselves are translated from `lib.rs`.  -/

namespace Old

/-- Modelled from the spec and the uses in `lib.rs` (`token.rs` is absent
from `src/`): the token kinds of the older generation — identifiers,
numbers, the punctuation and comparison kinds named in
`parse_infix_expression`/`map_precedence`, keywords, and `Eof`. -/
inductive Kind where
  | Ident | Number | Asterisk
  | Plus | Minus | Divide
  | Equal | NotEqual
  | LessThan | LessThanEqual | GreaterThan | GreaterThanEqual
  | Tilde
  | Comma | LeftParen | RightParen | SemiColon
  | Keyword (k : Tsql.Keyword)
  | Eof
  deriving DecidableEq, Repr

/-- Modelled from the spec and the uses in `lib.rs`: the older generation's
token payload, `Literal::String`/`QuotedString`/`Number`.  The `Number`
variant holds an `f64` in the source; the payload is inert in everything
proved here and is carried as its spelling. -/
inductive Literal where
  | Str (s : String)
  | QuotedStr (s : String)
  | Num (s : String)
  deriving DecidableEq, Repr

/-- `Literal`'s rendering, as consumed by `parse_select_item`'s
`token.literal().to_string()`. -/
def Literal.toDisplayString : Literal → String
  | .Str s => s
  | .QuotedStr s => s
  | .Num s => s

/-- Modelled from the spec and the uses in `lib.rs`: the older generation's
token, `Token::wrap(kind, literal)`.  The source token also carries a
line/column location, consumed only by the error-message formatters, which
are abstracted to an error count below. -/
structure Token where
  kind : Kind
  literal : Literal
  deriving DecidableEq, Repr

/-- The `Token::wrap(Kind::Eof, Literal::new_string(""))` initial token. -/
def eofToken : Token := ⟨.Eof, .Str ""⟩

/-! ### The AST (`ast.rs` of the older generation, absent from `src/`)

Modelled from the spec's §3 data model and the constructors and fields the
parser and its test module use.  `SelectStatement` is a one-constructor
inductive because Lean structures cannot join a mutual-inductive block. -/

/-- `ast::RowOrRows`. -/
inductive RowOrRows where
  | Row | Rows
  deriving DecidableEq, Repr

/-- `ast::NextOrFirst`. -/
inductive NextOrFirst where
  | Next | First
  deriving DecidableEq, Repr

mutual

/-- `ast::Expression` of the older generation. -/
inductive Expression where
  | Literal (t : Token)
  | Unary (operator : Token) (right : Expression)
  | Binary (left : Expression) (operator : Token) (right : Expression)
  | Grouping (e : Expression)
  | Subquery (s : Statement)

/-- `ast::SelectItem`. -/
inductive SelectItem where
  | Wildcard
  | Unnamed (e : Expression)
  | WithAlias (expression : Expression) (as_token : Bool) (aliasName : String)
  | WildcardWithAlias (expression : Expression) (as_token : Bool)
      (aliasName : String)

/-- `ast::TopArg`. -/
inductive TopArg where
  | mk (with_ties : Bool) (percent : Bool) (quantity : Expression)

/-- `ast::IntoArg`. -/
inductive IntoArg where
  | mk (table : Expression) (file_group : Option Expression)

/-- `ast::OffsetArg`. -/
inductive OffsetArg where
  | mk (value : Expression) (row : RowOrRows)

/-- `ast::FetchArg`. -/
inductive FetchArg where
  | mk (value : Expression) (row : RowOrRows) (first : NextOrFirst)

/-- `ast::OrderByArg`. -/
inductive OrderByArg where
  | mk (column : Expression) (asc : Option Bool)

/-- `ast::SelectStatement`, fields in the source's declaration order. -/
inductive SelectStatement where
  | mk (distinct : Bool) (top : Option TopArg) (columns : List SelectItem)
      (into_table : Option IntoArg) (table : List Expression)
      (where_clause : Option Expression) (group_by : List Expression)
      (having : Option Expression) (order_by : List OrderByArg)
      (offset : Option OffsetArg) (fetch : Option FetchArg)

/-- `ast::Statement`. -/
inductive Statement where
  | Select (s : SelectStatement)

end

/-- Field projection: `order_by`. -/
def SelectStatement.order_by : SelectStatement → List OrderByArg
  | .mk _ _ _ _ _ _ _ _ ob _ _ => ob

/-- Field projection: `offset`. -/
def SelectStatement.offset : SelectStatement → Option OffsetArg
  | .mk _ _ _ _ _ _ _ _ _ off _ => off

/-- Field projection: `fetch`. -/
def SelectStatement.fetch : SelectStatement → Option FetchArg
  | .mk _ _ _ _ _ _ _ _ _ _ f => f

/-! ### Parser state

The parser owns the older-generation lexer, absent from `src/`.  Modelled
from the spec (§2: the parser "holds a 2-token lookahead window: current,
peek" and pulls one token per advance): the unconsumed part of the lexer's
token stream is a list, yielding `Eof` tokens forever once exhausted.  The
error vector's contents feed only the `errors()` accessor, never a parsing
decision; it is abstracted to its length. -/

/-- The `Parser` struct of `lib.rs`. -/
structure Parser where
  current_token : Token
  peek_token : Token
  rest : List Token
  errors : Nat
  deriving DecidableEq, Repr

/-- `next_token`: shift `peek` into `current`, pull the next lexer token
into `peek`. -/
def Parser.next_token (p : Parser) : Parser :=
  { p with
    current_token := p.peek_token
    peek_token := p.rest.headD eofToken
    rest := p.rest.tail }

/-- `Parser::new`: both lookahead slots start as wrapped `Eof` tokens, then
two `next_token` calls fill the window. -/
def Parser.new (tokens : List Token) : Parser :=
  (Parser.next_token (Parser.next_token
    { current_token := eofToken, peek_token := eofToken, rest := tokens,
      errors := 0 }))

/-- `current_token_is`. -/
def Parser.current_token_is (p : Parser) (k : Kind) : Bool :=
  p.current_token.kind == k

/-- `peek_token_is`. -/
def Parser.peek_token_is (p : Parser) (k : Kind) : Bool :=
  p.peek_token.kind == k

/-- Any of `peek_error`/`current_error`/`peek_msg_error`/
`current_msg_error`: push one message onto the error vector. -/
def Parser.push_error (p : Parser) : Parser :=
  { p with errors := p.errors + 1 }

/-- `expect_peek`: advance on a kind match, record an error otherwise. -/
def Parser.expect_peek (p : Parser) (k : Kind) : Bool × Parser :=
  if p.peek_token_is k then (true, p.next_token) else (false, p.push_error)

/-- `expect_peek_multi`: advance on the first kind match, record an error
when none matches. -/
def Parser.expect_peek_multi (p : Parser) (ks : List Kind) : Bool × Parser :=
  if ks.any p.peek_token_is then (true, p.next_token)
  else (false, p.push_error)

/-- `expect_current`: test the current token's kind without advancing,
recording an error on mismatch. -/
def Parser.expect_current (p : Parser) (k : Kind) : Bool × Parser :=
  if p.current_token_is k then (true, p) else (false, p.push_error)

/-! ### Precedence -/

def PRECEDENCE_HIGHEST : Nat := 8
def PRECEDENCE_PRODUCT : Nat := 7
def PRECEDENCE_SUM : Nat := 6
def PRECEDENCE_COMPARISON : Nat := 5
def PRECEDENCE_NOT : Nat := 4
def PRECEDENCE_AND : Nat := 3
def PRECEDENCE_OTHER_LOGICALS : Nat := 2
def PRECEDENCE_LOWEST : Nat := 1

/-- `map_precedence` from `lib.rs`. -/
def map_precedence (k : Kind) : Nat :=
  match k with
  | .Tilde => PRECEDENCE_HIGHEST
  | .Asterisk | .Divide => PRECEDENCE_PRODUCT
  | .Plus | .Minus => PRECEDENCE_SUM
  | .Equal | .NotEqual | .LessThan | .LessThanEqual | .GreaterThan
  | .GreaterThanEqual => PRECEDENCE_COMPARISON
  | .Keyword .NOT => PRECEDENCE_NOT
  | .Keyword .AND => PRECEDENCE_AND
  | .Keyword .ALL | .Keyword .ANY | .Keyword .BETWEEN | .Keyword .IN
  | .Keyword .LIKE | .Keyword .OR | .Keyword .SOME =>
    PRECEDENCE_OTHER_LOGICALS
  | _ => PRECEDENCE_LOWEST

/-- `peek_precedence`. -/
def Parser.peek_precedence (p : Parser) : Nat :=
  map_precedence p.peek_token.kind

/-- `current_precedence`. -/
def Parser.current_precedence (p : Parser) : Nat :=
  map_precedence p.current_token.kind

/-- `parse_select_item` from `lib.rs`: build a `SelectItem` from an
optional previous expression, an optional alias expression, and the
`as_token` flag.  `None` without an error is returned when there is no
previous expression; an alias that is not a `Literal` records an error. -/
def parse_select_item (p : Parser) (prev_expr : Option Expression)
    (cur_expr : Option Expression) (as_token : Bool) :
    Option SelectItem × Parser :=
  match prev_expr with
  | some prev =>
    match cur_expr with
    | some cur =>
      match cur with
      | .Literal tok =>
        let lit := tok.literal.toDisplayString
        match prev with
        | .Literal ptok =>
          if ptok.kind == .Asterisk then
            (some (.WildcardWithAlias prev as_token lit), p)
          else (some (.WithAlias prev as_token lit), p)
        | _ => (some (.WithAlias prev as_token lit), p)
      | _ => (none, p.push_error)
    | none =>
      match prev with
      | .Literal ptok =>
        if ptok.kind == .Asterisk then (some .Wildcard, p)
        else (some (.Unnamed prev), p)
      | _ => (some (.Unnamed prev), p)
  | none => (none, p)

mutual

/-- `parse_expression` from `lib.rs`: parse a prefix expression, then run
the precedence-climbing loop. -/
def parse_expression (fuel : Nat) (p : Parser) (precedence : Nat) :
    Option Expression × Parser :=
  match fuel with
  | 0 => (none, p)
  | fuel + 1 =>
    match parse_prefix_expression fuel p with
    | (left, p) => parse_expression_loop fuel p precedence left

/-- The `while precedence < self.peek_precedence()` loop of
`parse_expression`: on each iteration advance, fold the left expression
through `parse_infix_expression`, and continue; a missing left expression
aborts with `None`. -/
def parse_expression_loop (fuel : Nat) (p : Parser) (precedence : Nat)
    (left : Option Expression) : Option Expression × Parser :=
  match fuel with
  | 0 => (none, p)
  | fuel + 1 =>
    if precedence < p.peek_precedence then
      let p := p.next_token
      match left with
      | some expression =>
        match parse_infix_expression fuel p expression with
        | (left2, p) => parse_expression_loop fuel p precedence left2
      | none => (none, p)
    else (left, p)

/-- `parse_prefix_expression` from `lib.rs`. -/
def parse_prefix_expression (fuel : Nat) (p : Parser) :
    Option Expression × Parser :=
  match fuel with
  | 0 => (none, p)
  | fuel + 1 =>
    match p.current_token.kind with
    | .Ident | .Number | .Asterisk =>
      (some (.Literal p.current_token), p)
    | .Plus | .Minus | .Keyword .NOT =>
      let operator := p.current_token
      let precedence := p.current_precedence
      let p := p.next_token
      match parse_expression fuel p precedence with
      | (some right, p) => (some (.Unary operator right), p)
      | (none, p) => (none, p)
    | .LeftParen =>
      if p.peek_token_is (.Keyword .SELECT) then
        let p := p.next_token
        match parse_select_statement fuel p with
        | (some statement, p) =>
          match p.expect_peek .RightParen with
          | (true, p) => (some (.Subquery statement), p)
          | (false, p) => (none, p)
        | (none, p) => (none, p)
      else parse_grouping fuel p
    | _ => (none, p)

/-- `parse_infix_expression` from `lib.rs`. -/
def parse_infix_expression (fuel : Nat) (p : Parser) (left : Expression) :
    Option Expression × Parser :=
  match fuel with
  | 0 => (none, p)
  | fuel + 1 =>
    match p.current_token.kind with
    | .Plus | .Minus | .Asterisk | .Divide | .Equal | .NotEqual
    | .LessThan | .LessThanEqual | .GreaterThan | .GreaterThanEqual
    | .Keyword .ALL | .Keyword .AND | .Keyword .ANY | .Keyword .BETWEEN
    | .Keyword .IN | .Keyword .LIKE | .Keyword .OR | .Keyword .SOME =>
      let operator := p.current_token
      let precedence := p.current_precedence
      let p := p.next_token
      match parse_expression fuel p precedence with
      | (some right, p) => (some (.Binary left operator right), p)
      | (none, p) => (none, p)
    | _ => (none, p)

/-- `parse_grouping` from `lib.rs`. -/
def parse_grouping (fuel : Nat) (p : Parser) : Option Expression × Parser :=
  match fuel with
  | 0 => (none, p)
  | fuel + 1 =>
    match p.expect_current .LeftParen with
    | (false, p) => (none, p)
    | (true, p) =>
      let p := p.next_token
      match parse_expression fuel p PRECEDENCE_LOWEST with
      | (none, p) => (none, p)
      | (some e, p) =>
        match p.expect_peek .RightParen with
        | (false, p) => (none, p)
        | (true, p) => (some (.Grouping e), p)

/-- `parse_select_statement` from `lib.rs`, first section: the optional
`DISTINCT`, `ALL` and `TOP` clauses.  The single imperative function with
early returns is rendered as a chain of stage functions, one per clause
block, each threading the fields accumulated so far (`SelectStatement::new`
starts them at `false`/`None`/empty). -/
def parse_select_statement (fuel : Nat) (p : Parser) :
    Option Statement × Parser :=
  match fuel with
  | 0 => (none, p)
  | fuel + 1 =>
    let (distinct, p) :=
      if p.peek_token_is (.Keyword .DISTINCT) then (true, p.next_token)
      else (false, p)
    let p := if p.peek_token_is (.Keyword .ALL) then p.next_token else p
    if p.peek_token_is (.Keyword .TOP) then
      let p := p.next_token
      let p := p.next_token
      match parse_expression fuel p PRECEDENCE_LOWEST with
      | (some expression, p) =>
        let (is_percent, p) :=
          if p.peek_token_is (.Keyword .PERCENT) then (true, p.next_token)
          else (false, p)
        if p.peek_token_is (.Keyword .WITH) then
          let p := p.next_token
          match p.expect_peek (.Keyword .TIES) with
          | (false, p) => (none, p)
          | (true, p) =>
            select_columns fuel p distinct (some (.mk true is_percent
              expression))
        else
          select_columns fuel p distinct (some (.mk false is_percent
            expression))
      | (none, p) => (none, p.push_error)
    else select_columns fuel p distinct none

/-- `parse_select_statement`, column-list section: delegate to
`parse_select_items` and abandon the statement when it fails. -/
def select_columns (fuel : Nat) (p : Parser) (distinct : Bool)
    (top : Option TopArg) : Option Statement × Parser :=
  match fuel with
  | 0 => (none, p)
  | fuel + 1 =>
    match parse_select_items fuel p with
    | (some select_items, p) => select_into fuel p distinct top select_items
    | (none, p) => (none, p)

/-- `parse_select_statement`, `INTO table [ON filegroup]` section. -/
def select_into (fuel : Nat) (p : Parser) (distinct : Bool)
    (top : Option TopArg) (columns : List SelectItem) :
    Option Statement × Parser :=
  match fuel with
  | 0 => (none, p)
  | fuel + 1 =>
    if p.peek_token_is (.Keyword .INTO) then
      let p := p.next_token
      match p.expect_peek .Ident with
      | (false, p) => (none, p)
      | (true, p) =>
        let into_table := Expression.Literal p.current_token
        if p.peek_token_is (.Keyword .ON) then
          let p := p.next_token
          match p.expect_peek .Ident with
          | (false, p) => (none, p)
          | (true, p) =>
            select_from fuel p distinct top columns
              (some (.mk into_table (some (.Literal p.current_token))))
        else
          select_from fuel p distinct top columns
            (some (.mk into_table none))
    else select_from fuel p distinct top columns none

/-- The column filter of the `FROM` decision: a select item counts as a
plain literal when it is an unnamed or aliased `Literal` expression of kind
`Number` or `Ident`. -/
def select_item_is_literal : SelectItem → Bool
  | .Unnamed (.Literal t) => t.kind == .Number || t.kind == .Ident
  | .WithAlias (.Literal t) _ _ => t.kind == .Number || t.kind == .Ident
  | _ => false

/-- `parse_select_statement`, table section: when any column is not a
plain literal a `FROM` clause is mandatory; otherwise it is optional. -/
def select_from (fuel : Nat) (p : Parser) (distinct : Bool)
    (top : Option TopArg) (columns : List SelectItem)
    (into_table : Option IntoArg) : Option Statement × Parser :=
  match fuel with
  | 0 => (none, p)
  | fuel + 1 =>
    let number_of_non_literal_tokens :=
      (columns.filter (fun ex => ¬ select_item_is_literal ex)).length
    if number_of_non_literal_tokens > 0 then
      match p.expect_peek (.Keyword .FROM) with
      | (false, p) => (none, p)
      | (true, p) =>
        match p.expect_peek .Ident with
        | (false, p) => (none, p)
        | (true, p) =>
          select_where fuel p distinct top columns into_table
            [.Literal p.current_token]
    else
      if p.peek_token_is (.Keyword .FROM) then
        let p := p.next_token
        match p.expect_peek .Ident with
        | (false, p) => (none, p)
        | (true, p) =>
          select_where fuel p distinct top columns into_table
            [.Literal p.current_token]
      else select_where fuel p distinct top columns into_table []

/-- `parse_select_statement`, `WHERE` section: a parsed non-`Binary`
where-expression records an error but parsing continues with it; a failed
parse records an error and abandons the statement. -/
def select_where (fuel : Nat) (p : Parser) (distinct : Bool)
    (top : Option TopArg) (columns : List SelectItem)
    (into_table : Option IntoArg) (table : List Expression) :
    Option Statement × Parser :=
  match fuel with
  | 0 => (none, p)
  | fuel + 1 =>
    if p.peek_token_is (.Keyword .WHERE) then
      let p := p.next_token
      let p := p.next_token
      match parse_expression fuel p PRECEDENCE_LOWEST with
      | (some ex, p) =>
        let p := match ex with
          | .Binary _ _ _ => p
          | _ => p.push_error
        select_group fuel p distinct top columns into_table table (some ex)
      | (none, p) => (none, p.push_error)
    else select_group fuel p distinct top columns into_table table none

/-- `parse_select_statement`, `GROUP BY` section. -/
def select_group (fuel : Nat) (p : Parser) (distinct : Bool)
    (top : Option TopArg) (columns : List SelectItem)
    (into_table : Option IntoArg) (table : List Expression)
    (where_clause : Option Expression) : Option Statement × Parser :=
  match fuel with
  | 0 => (none, p)
  | fuel + 1 =>
    if p.peek_token_is (.Keyword .GROUP) then
      let p := p.next_token
      match parse_group_by_args fuel p with
      | (some expression, p) =>
        select_having fuel p distinct top columns into_table table
          where_clause expression
      | (none, p) => (none, p)
    else
      select_having fuel p distinct top columns into_table table
        where_clause []

/-- `parse_select_statement`, `HAVING` section (same error policy as
`WHERE`). -/
def select_having (fuel : Nat) (p : Parser) (distinct : Bool)
    (top : Option TopArg) (columns : List SelectItem)
    (into_table : Option IntoArg) (table : List Expression)
    (where_clause : Option Expression) (group_by : List Expression) :
    Option Statement × Parser :=
  match fuel with
  | 0 => (none, p)
  | fuel + 1 =>
    if p.peek_token_is (.Keyword .HAVING) then
      let p := p.next_token
      let p := p.next_token
      match parse_expression fuel p PRECEDENCE_LOWEST with
      | (some ex, p) =>
        let p := match ex with
          | .Binary _ _ _ => p
          | _ => p.push_error
        select_order fuel p distinct top columns into_table table
          where_clause group_by (some ex)
      | (none, p) => (none, p.push_error)
    else
      select_order fuel p distinct top columns into_table table where_clause
        group_by none

/-- `parse_select_statement`, final section: `ORDER BY`, then (only inside
its branch) `OFFSET`, then (only inside that one) `FETCH`; every exit
builds the accumulated `SelectStatement`. -/
def select_order (fuel : Nat) (p : Parser) (distinct : Bool)
    (top : Option TopArg) (columns : List SelectItem)
    (into_table : Option IntoArg) (table : List Expression)
    (where_clause : Option Expression) (group_by : List Expression)
    (having : Option Expression) : Option Statement × Parser :=
  match fuel with
  | 0 => (none, p)
  | fuel + 1 =>
    if p.peek_token_is (.Keyword .ORDER) then
      let p := p.next_token
      match parse_order_by_args fuel p with
      | (none, p) => (none, p)
      | (some args, p) =>
        if p.peek_token_is (.Keyword .OFFSET) then
          let p := p.next_token
          match parse_offset fuel p with
          | (none, p) => (none, p)
          | (some off, p) =>
            if p.peek_token_is (.Keyword .FETCH) then
              let p := p.next_token
              match parse_fetch fuel p with
              | (none, p) => (none, p)
              | (some f, p) =>
                let p := p.next_token
                (some (.Select (.mk distinct top columns into_table table
                  where_clause group_by having args (some off) (some f))), p)
            else
              (some (.Select (.mk distinct top columns into_table table
                where_clause group_by having args (some off) none)), p)
        else
          (some (.Select (.mk distinct top columns into_table table
            where_clause group_by having args none none)), p)
    else
      (some (.Select (.mk distinct top columns into_table table where_clause
        group_by having [] none none)), p)

/-- `parse_select_items` from `lib.rs`: reject a peek token that can start
no select item, then run the item loop. -/
def parse_select_items (fuel : Nat) (p : Parser) :
    Option (List SelectItem) × Parser :=
  match fuel with
  | 0 => (none, p)
  | fuel + 1 =>
    if ¬ p.peek_token_is .Ident ∧ ¬ p.peek_token_is .Number ∧
        ¬ p.peek_token_is .Asterisk ∧ ¬ p.peek_token_is .LeftParen then
      (none, p.push_error)
    else select_items_loop fuel p [] none false

/-- The `while` loop of `parse_select_items`, with its trailing
flush-and-validate block: loop while the peek token is none of `FROM`,
`INTO`, `Eof`; afterwards flush the pending expression and reject an empty
item list or a trailing comma. -/
def select_items_loop (fuel : Nat) (p : Parser) (columns : List SelectItem)
    (previous_expr : Option Expression) (comma_seen : Bool) :
    Option (List SelectItem) × Parser :=
  match fuel with
  | 0 => (none, p)
  | fuel + 1 =>
    if ¬ p.peek_token_is (.Keyword .FROM) ∧
        ¬ p.peek_token_is (.Keyword .INTO) ∧ ¬ p.peek_token_is .Eof then
      let p := p.next_token
      match p.current_token.kind with
      | .Comma =>
        match parse_select_item p previous_expr none false with
        | (some select_item, p) =>
          select_items_loop fuel p (columns ++ [select_item]) none true
        | (none, p) => select_items_loop fuel p columns previous_expr true
      | .Keyword .AS =>
        if ¬ p.peek_token_is .Ident then (none, p.push_error)
        else
          let p := p.next_token
          match parse_expression fuel p PRECEDENCE_LOWEST with
          | (some expression, p) =>
            match parse_select_item p previous_expr (some expression) true
                with
            | (some select_item, p) =>
              select_items_loop fuel p (columns ++ [select_item]) none false
            | (none, p) =>
              select_items_loop fuel p columns (some expression) false
          | (none, p) => (none, p.push_error)
      | _ =>
        match parse_expression fuel p PRECEDENCE_LOWEST with
        | (some expression, p) =>
          match parse_select_item p previous_expr (some expression) false
              with
          | (some select_item, p) =>
            select_items_loop fuel p (columns ++ [select_item]) none false
          | (none, p) =>
            select_items_loop fuel p columns (some expression) false
        | (none, p) => (none, p.push_error)
    else
      let (tail_item, p) := parse_select_item p previous_expr none false
      let columns := match tail_item with
        | some item => columns ++ [item]
        | none => columns
      match columns.length, comma_seen with
      | 0, _ => (none, p.push_error)
      | _ + 1, true => (none, p.push_error)
      | _ + 1, false => (some columns, p)

/-- `parse_group_by_args` from `lib.rs`: expect `BY`, then loop to
`HAVING`/`;`/`Eof` collecting expressions, rejecting an empty list or a
trailing comma. -/
def parse_group_by_args (fuel : Nat) (p : Parser) :
    Option (List Expression) × Parser :=
  match fuel with
  | 0 => (none, p)
  | fuel + 1 =>
    match p.expect_peek (.Keyword .BY) with
    | (false, p) => (none, p)
    | (true, p) => group_by_loop fuel p [] false

/-- The `while` loop of `parse_group_by_args` with its validate block. -/
def group_by_loop (fuel : Nat) (p : Parser) (args : List Expression)
    (seen_arg : Bool) : Option (List Expression) × Parser :=
  match fuel with
  | 0 => (none, p)
  | fuel + 1 =>
    if ¬ p.peek_token_is (.Keyword .HAVING) ∧ ¬ p.peek_token_is .SemiColon ∧
        ¬ p.peek_token_is .Eof then
      let p := p.next_token
      match p.current_token.kind with
      | .Comma => group_by_loop fuel p args false
      | _ =>
        match parse_expression fuel p PRECEDENCE_LOWEST with
        | (some expression, p) =>
          group_by_loop fuel p (args ++ [expression]) true
        | (none, p) => (none, p.push_error)
    else
      match args.length, seen_arg with
      | 0, _ => (none, p.push_error)
      | _ + 1, false => (none, p.push_error)
      | _ + 1, true => (some args, p)

/-- `parse_order_by_args` from `lib.rs`: expect `BY`, then loop to
`OFFSET`/`;`/`Eof` collecting expressions with their optional `ASC`/`DESC`,
rejecting an empty list or a trailing comma. -/
def parse_order_by_args (fuel : Nat) (p : Parser) :
    Option (List OrderByArg) × Parser :=
  match fuel with
  | 0 => (none, p)
  | fuel + 1 =>
    match p.expect_peek (.Keyword .BY) with
    | (false, p) => (none, p)
    | (true, p) => order_by_loop fuel p [] false

/-- The `while` loop of `parse_order_by_args` with its validate block. -/
def order_by_loop (fuel : Nat) (p : Parser) (args : List OrderByArg)
    (seen_arg : Bool) : Option (List OrderByArg) × Parser :=
  match fuel with
  | 0 => (none, p)
  | fuel + 1 =>
    if ¬ p.peek_token_is (.Keyword .OFFSET) ∧ ¬ p.peek_token_is .SemiColon ∧
        ¬ p.peek_token_is .Eof then
      let p := p.next_token
      match p.current_token.kind with
      | .Comma => order_by_loop fuel p args false
      | _ =>
        match parse_expression fuel p PRECEDENCE_LOWEST with
        | (some expression, p) =>
          let (is_asc, p) :=
            if p.peek_token_is (.Keyword .ASC) then (some true, p.next_token)
            else if p.peek_token_is (.Keyword .DESC) then
              (some false, p.next_token)
            else (none, p)
          order_by_loop fuel p (args ++ [.mk expression is_asc]) true
        | (none, p) => (none, p.push_error)
    else
      match args.length, seen_arg with
      | 0, _ => (none, p.push_error)
      | _ + 1, false => (none, p.push_error)
      | _ + 1, true => (some args, p)

/-- `parse_offset` from `lib.rs`: skip the `OFFSET` keyword, parse the
offset expression, then require `ROW` or `ROWS`. -/
def parse_offset (fuel : Nat) (p : Parser) : Option OffsetArg × Parser :=
  match fuel with
  | 0 => (none, p)
  | fuel + 1 =>
    let p := p.next_token
    match parse_expression fuel p PRECEDENCE_LOWEST with
    | (some offset, p) =>
      match p.expect_peek_multi [.Keyword .ROW, .Keyword .ROWS] with
      | (false, p) => (none, p)
      | (true, p) =>
        match p.current_token.kind with
        | .Keyword .ROW => (some (.mk offset .Row), p)
        | .Keyword .ROWS => (some (.mk offset .Rows), p)
        | _ => (none, p.push_error)
    | (none, p) => (none, p.push_error)

/-- `parse_fetch` from `lib.rs`: require `FIRST` or `NEXT`, advance, parse
the fetch expression, require `ROW`/`ROWS`, require `ONLY`, advance. -/
def parse_fetch (fuel : Nat) (p : Parser) : Option FetchArg × Parser :=
  match fuel with
  | 0 => (none, p)
  | fuel + 1 =>
    match p.expect_peek_multi [.Keyword .NEXT, .Keyword .FIRST] with
    | (false, p) => (none, p)
    | (true, p) =>
      match p.current_token.kind with
      | .Keyword .FIRST => parse_fetch_value fuel p .First
      | .Keyword .NEXT => parse_fetch_value fuel p .Next
      | _ => (none, p.push_error)

/-- `parse_fetch`, continuation after the `FIRST`/`NEXT` decision. -/
def parse_fetch_value (fuel : Nat) (p : Parser) (first : NextOrFirst) :
    Option FetchArg × Parser :=
  match fuel with
  | 0 => (none, p)
  | fuel + 1 =>
    let p := p.next_token
    match parse_expression fuel p PRECEDENCE_LOWEST with
    | (some fetch, p) =>
      match p.expect_peek_multi [.Keyword .ROW, .Keyword .ROWS] with
      | (false, p) => (none, p)
      | (true, p) =>
        match p.current_token.kind with
        | .Keyword .ROW => parse_fetch_only fuel p fetch .Row first
        | .Keyword .ROWS => parse_fetch_only fuel p fetch .Rows first
        | _ => (none, p.push_error)
    | (none, p) => (none, p.push_error)

/-- `parse_fetch`, final `ONLY` check and construction. -/
def parse_fetch_only (fuel : Nat) (p : Parser) (value : Expression)
    (row : RowOrRows) (first : NextOrFirst) : Option FetchArg × Parser :=
  match fuel with
  | 0 => (none, p)
  | fuel + 1 =>
    match p.expect_peek (.Keyword .ONLY) with
    | (false, p) => (none, p)
    | (true, p) =>
      let p := p.next_token
      (some (.mk value row first), p)

end

end Old

/-! ## The newer AST generation (`src/sql_parser/src/ast/expressions.rs`)

`expressions.rs` imports `Span`, `Token`, `TokenKind` from the `sql_lexer`
crate and `DataType`, `SelectStatement` from its parent `ast` module; none
of those definitions are present under `src/`, so they are modelled from
the spec.  Everything else in this section is translated from
`expressions.rs` (and `src/sql_parser/src/error.rs` for the error type). -/

namespace NewAst

/-- `sql_lexer::TokenKind` as consumed by `expressions.rs` and
`src/parser/src/error.rs`.  Modelled from the spec's §3 closed token-kind
list with the variant names those two files match on (this generation names
the `%` kind `PercentSign`). -/
inductive TokenKind where
  | Identifier (s : List Char)
  | QuotedIdentifier (s : List Char)
  | StringLiteral (s : List Char)
  | NumberLiteral (s : List Char)
  | LocalVariable (s : List Char)
  | Comment (s : List Char)
  | Keyword (k : Tsql.Keyword)
  | Comma | LeftParen | RightParen
  | Equal | BangEqual | LessThanGreaterThan
  | LessThan | LessThanEqual | GreaterThan | GreaterThanEqual
  | Plus | Minus | ForwardSlash | Asterisk | PercentSign | Period
  | SemiColon
  | Eof
  deriving DecidableEq, Repr

/-- Modelled from the spec: §3 "Token: `{kind: TokenKind, span: Span}`"
(the `sql_lexer` token consumed through `.kind()` and `.location()`). -/
structure Token where
  kind : TokenKind
  span : Span
  deriving DecidableEq, Repr

/-- `Token::kind()`. -/
def Token.kindOf (t : Token) : TokenKind := t.kind

/-- `Token::location()`. -/
def Token.location (t : Token) : Span := t.span

/-- `ParseErrorType` from `src/sql_parser/src/error.rs` (the 33-line error
module of the same crate as `expressions.rs`). -/
inductive ParseErrorType where
  | UnexpectedToken (token : TokenKind) (expected : List String)
  | UnrecognizedEof
  | ExpectedKeyword
  | ExpectedFunctionName
  | EmptySelectColumns
  | EmptyGroupByClause
  | EmptyPartitionByClause
  | EmptyOrderByArgs
  | ExpectedDataType
  | ExpectedFloatPrecision
  | ExpectedSubqueryOrExpressionList
  | MissingRowsOrRangeInWindowFrameClause
  | MissingAliasAfterAsKeyword
  | ExpectedUnboundedPrecedingCurrentRowOrNumberPreceding
  | ExpectedUnboundedPrecedingCurrentRowOrNumberFollowing
  | ExpectedLocalVariable
  | ExpectedObjectToInsertTo
  | InvalidOrUnimplementedStatement
  deriving DecidableEq, Repr

/-- `ParseError` from `src/sql_parser/src/error.rs`. -/
structure ParseError where
  error : ParseErrorType
  deriving DecidableEq, Repr

/-- `ComparisonOperatorKind` from `expressions.rs`. -/
inductive ComparisonOperatorKind where
  | Equal | NotEqualBang | NotEqualArrow
  | GreaterThan | GreaterThanEqual | LessThan | LessThanEqual
  deriving DecidableEq, Repr

/-- `ArithmeticOperatorKind` from `expressions.rs`. -/
inductive ArithmeticOperatorKind where
  | Plus | Minus | Multiply | Divide | Modulus
  deriving DecidableEq, Repr

/-- `UnaryOperatorKind` from `expressions.rs`. -/
inductive UnaryOperatorKind where
  | Plus | Minus
  deriving DecidableEq, Repr

/-- `ComparisonOperator` from `expressions.rs`. -/
structure ComparisonOperator where
  location : Span
  kind : ComparisonOperatorKind
  deriving DecidableEq, Repr

/-- `ArithmeticOperator` from `expressions.rs`. -/
structure ArithmeticOperator where
  location : Span
  kind : ArithmeticOperatorKind
  deriving DecidableEq, Repr

/-- `UnaryOperator` from `expressions.rs`. -/
structure UnaryOperator where
  location : Span
  kind : UnaryOperatorKind
  deriving DecidableEq, Repr

/-- `Literal` from `expressions.rs` (a located piece of source text). -/
structure Literal where
  location : Span
  content : String
  deriving DecidableEq, Repr

/-- `RowsOrRange` from `expressions.rs`. -/
inductive RowsOrRange where
  | Rows | Range
  deriving DecidableEq, Repr

/-- Modelled from the spec: `OFFSET n ROW|ROWS` / `FETCH ... ROW|ROWS`
keyword choice (§4.3). -/
inductive RowOrRows where
  | Row | Rows
  deriving DecidableEq, Repr

/-- Modelled from the spec: `FETCH FIRST|NEXT` keyword choice (§4.3). -/
inductive NextOrFirst where
  | Next | First
  deriving DecidableEq, Repr

/-- Modelled from the spec: the join flavours of §4.3 ("INNER/LEFT/LEFT
OUTER/RIGHT/RIGHT OUTER/FULL/FULL OUTER"). -/
inductive JoinType where
  | Inner | Left | LeftOuter | Right | RightOuter | Full | FullOuter
  deriving DecidableEq, Repr

/-- Modelled from the spec: the `CAST(expr AS type)` target — a type-name
keyword with an optional size/precision argument (§4.4, §4.5's
"expected data type / size"). -/
structure DataType where
  name : Tsql.Keyword
  size : Option Nat
  deriving DecidableEq, Repr

mutual

/-- `Expression` from `expressions.rs`, all 25 variants in source order. -/
inductive Expression where
  | Asterisk
  | Identifier (v : Literal)
  | QuotedIdentifier (v : Literal)
  | StringLiteral (v : Literal)
  | NumberLiteral (v : Literal)
  | LocalVariable (v : Literal)
  | Keyword (v : Tsql.Keyword)
  | Compound (v : List Expression)
  | Arithmetic (operator : ArithmeticOperator) (left : Expression)
      (right : Expression)
  | And (and_kw : Tsql.Keyword) (left : Expression) (right : Expression)
  | Or (or_kw : Tsql.Keyword) (left : Expression) (right : Expression)
  | Comparison (operator : ComparisonOperator) (left : Expression)
      (right : Expression)
  | Unary (operator : UnaryOperator) (right : Expression)
  | Function (name : FunctionName) (args : Option (List Expression))
      (over : Option OverClause)
  | Cast (cast_kw : Tsql.Keyword) (expression : Expression)
      (as_kw : Tsql.Keyword) (data_type : DataType)
  | InExpressionList (test_expression : Expression)
      (in_kw : Tsql.Keyword) (not_kw : Option Tsql.Keyword)
      (list : List Expression)
  | InSubquery (test_expression : Expression) (in_kw : Tsql.Keyword)
      (not_kw : Option Tsql.Keyword) (subquery : Expression)
  | Subquery (s : SelectStatement)
  | Between (test_expression : Expression) (not_kw : Option Tsql.Keyword)
      (between_kw : Tsql.Keyword) (begin_ : Expression)
      (and_kw : Tsql.Keyword) (end_ : Expression)
  | Not (not_kw : Tsql.Keyword) (expression : Expression)
  | Exists (exists_kw : Tsql.Keyword) (subquery : Expression)
  | All (all_kw : Tsql.Keyword) (scalar_expression : Expression)
      (comparison_op : ComparisonOperator) (subquery : Expression)
  | Some (some_kw : Tsql.Keyword) (scalar_expression : Expression)
      (comparison_op : ComparisonOperator) (subquery : Expression)
  | Any (any_kw : Tsql.Keyword) (scalar_expression : Expression)
      (comparison_op : ComparisonOperator) (subquery : Expression)
  | Like (match_expression : Expression) (not_kw : Option Tsql.Keyword)
      (like_kw : Tsql.Keyword) (pattern : Expression)
  | SimpleCase (case_kw : Tsql.Keyword) (input_expression : Expression)
      (conditions : List CaseCondition) (end_kw : Tsql.Keyword)
  | SearchedCase (case_kw : Tsql.Keyword)
      (conditions : List CaseCondition) (end_kw : Tsql.Keyword)

/-- `FunctionName` from `expressions.rs`. -/
inductive FunctionName where
  | Builtin (k : Tsql.Keyword)
  | User (e : Expression)

/-- `CaseCondition` from `expressions.rs`. -/
inductive CaseCondition where
  | WhenCondition (when_kw : Tsql.Keyword) (when_expression : Expression)
      (then_kw : Tsql.Keyword) (result_expression : Expression)
  | ElseCondition (else_kw : Tsql.Keyword) (result_expression : Expression)

/-- `OrderByArg` from `expressions.rs`. -/
inductive OrderByArg where
  | mk (column : Expression) (order_kw : Option Tsql.Keyword)

/-- `WindowFrameBound` from `expressions.rs`. -/
inductive WindowFrameBound where
  | CurrentRow
  | Preceding (e : Expression)
  | Following (e : Expression)
  | UnboundedPreceding
  | UnboundedFollowing

/-- `WindowFrame` from `expressions.rs`. -/
inductive WindowFrame where
  | mk (rows_or_range : RowsOrRange) (rows_or_range_kw : Tsql.Keyword)
      (start_bound_keywords : List Tsql.Keyword) (start : WindowFrameBound)
      (between_kw : Option Tsql.Keyword) (and_kw : Option Tsql.Keyword)
      (end_bound_keywords : Option (List Tsql.Keyword))
      (end_ : Option WindowFrameBound)

/-- `OverClause` from `expressions.rs`. -/
inductive OverClause where
  | mk (over_kw : Tsql.Keyword)
      (partition_by_kws : Option (List Tsql.Keyword))
      (partition_by : List Expression)
      (order_by_kws : Option (List Tsql.Keyword))
      (order_by : List OrderByArg) (window_frame : Option WindowFrame)

/-- Modelled from the spec: §3's `SelectItem` (wildcard, unnamed
expression, aliased expression with the §4.3 implicit/explicit-`AS` flag).
-/
inductive SelectItem where
  | Wildcard
  | Unnamed (e : Expression)
  | WithAlias (e : Expression) (as_kw : Bool) (aliasName : String)

/-- Modelled from the spec: §3 `TopArg` (`TOP n [PERCENT] [WITH TIES]`). -/
inductive TopArg where
  | mk (with_ties : Bool) (percent : Bool) (quantity : Expression)

/-- Modelled from the spec: §3 `IntoArg` (`INTO table [ON filegroup]`). -/
inductive IntoArg where
  | mk (table : Expression) (file_group : Option Expression)

/-- Modelled from the spec: §3 `Join` (one joined table with its `ON`
condition). -/
inductive Join where
  | mk (joinType : JoinType) (table : Expression) (condition : Expression)

/-- Modelled from the spec: §3 `TableArg` ("a source table plus an ordered
list of `Join`s"). -/
inductive TableArg where
  | mk (table : Expression) (joins : List Join)

/-- Modelled from the spec: §3 `OffsetArg` (`OFFSET n ROW|ROWS`). -/
inductive OffsetArg where
  | mk (value : Expression) (row : RowOrRows)

/-- Modelled from the spec: §3 `FetchArg`
(`FETCH FIRST|NEXT n ROW|ROWS ONLY`). -/
inductive FetchArg where
  | mk (value : Expression) (first : NextOrFirst) (row : RowOrRows)

/-- Modelled from the spec: §3's `SelectStatement` aggregate, field for
field. -/
inductive SelectStatement where
  | mk (distinct : Bool) (top : Option TopArg) (columns : List SelectItem)
      (into_table : Option IntoArg) (table : Option TableArg)
      (where_clause : Option Expression) (group_by : List Expression)
      (having : Option Expression) (order_by : List OrderByArg)
      (offset : Option OffsetArg) (fetch : Option FetchArg)

end

/-- `impl fmt::Display for ComparisonOperatorKind` from `expressions.rs`:
note the `LessThan` arm writes `"<="`, exactly as the source does on its
line 253. -/
def ComparisonOperatorKind.display : ComparisonOperatorKind → String
  | .Equal => "="
  | .NotEqualBang => "!="
  | .NotEqualArrow => "<>"
  | .GreaterThan => ">"
  | .GreaterThanEqual => ">="
  | .LessThan => "<="
  | .LessThanEqual => "<="

/-- `impl fmt::Display for ArithmeticOperatorKind`. -/
def ArithmeticOperatorKind.display : ArithmeticOperatorKind → String
  | .Plus => "+"
  | .Minus => "-"
  | .Multiply => "*"
  | .Divide => "/"
  | .Modulus => "%"

/-- `impl fmt::Display for UnaryOperatorKind`. -/
def UnaryOperatorKind.display : UnaryOperatorKind → String
  | .Plus => "+"
  | .Minus => "-"

/-- `impl fmt::Display for Token` of the lexer generation (for the
operator kinds, the source spelling of the token; from `token_new.rs`,
whose `Display` writes `"<"` for `LessThan`, `"<="` for `LessThanEqual`,
and so on). -/
def TokenKind.display : TokenKind → Option String
  | .Equal => some "="
  | .BangEqual => some "!="
  | .LessThanGreaterThan => some "<>"
  | .LessThan => some "<"
  | .LessThanEqual => some "<="
  | .GreaterThan => some ">"
  | .GreaterThanEqual => some ">="
  | _ => none

/-- `impl TryFrom<Token> for ComparisonOperator` from `expressions.rs`. -/
def ComparisonOperator.tryFromToken (value : Token) :
    Except ParseError ComparisonOperator :=
  match value.kindOf with
  | .Equal => .ok ⟨value.location, .Equal⟩
  | .BangEqual => .ok ⟨value.location, .NotEqualBang⟩
  | .LessThanGreaterThan => .ok ⟨value.location, .NotEqualArrow⟩
  | .GreaterThan => .ok ⟨value.location, .GreaterThan⟩
  | .GreaterThanEqual => .ok ⟨value.location, .GreaterThanEqual⟩
  | .LessThan => .ok ⟨value.location, .LessThan⟩
  | .LessThanEqual => .ok ⟨value.location, .LessThanEqual⟩
  | _ => .error ⟨.ExpectedKeyword⟩

/-- `impl TryFrom<Option<Token>> for ComparisonOperator` from
`expressions.rs`: delegate on `Some`, `unreachable!()` — a panic, the outer
`none` — on `None`. -/
def ComparisonOperator.tryFromOptionToken (value : Option Token) :
    Option (Except ParseError ComparisonOperator) :=
  match value with
  | some token => some (ComparisonOperator.tryFromToken token)
  | none => none

/-- `impl TryFrom<Token> for ArithmeticOperator` from `expressions.rs`. -/
def ArithmeticOperator.tryFromToken (value : Token) :
    Except ParseError ArithmeticOperator :=
  match value.kindOf with
  | .Plus => .ok ⟨value.location, .Plus⟩
  | .Minus => .ok ⟨value.location, .Minus⟩
  | .Asterisk => .ok ⟨value.location, .Multiply⟩
  | .ForwardSlash => .ok ⟨value.location, .Divide⟩
  | .PercentSign => .ok ⟨value.location, .Modulus⟩
  | _ => .error ⟨.ExpectedKeyword⟩

/-- `impl TryFrom<Option<Token>> for ArithmeticOperator`:
`unreachable!()` on `None`. -/
def ArithmeticOperator.tryFromOptionToken (value : Option Token) :
    Option (Except ParseError ArithmeticOperator) :=
  match value with
  | some token => some (ArithmeticOperator.tryFromToken token)
  | none => none

/-- `impl TryFrom<Token> for UnaryOperator` from `expressions.rs`. -/
def UnaryOperator.tryFromToken (value : Token) :
    Except ParseError UnaryOperator :=
  match value.kindOf with
  | .Plus => .ok ⟨value.location, .Plus⟩
  | .Minus => .ok ⟨value.location, .Minus⟩
  | _ => .error ⟨.ExpectedKeyword⟩

/-- `impl TryFrom<Option<Token>> for UnaryOperator`: `unreachable!()` on
`None`. -/
def UnaryOperator.tryFromOptionToken (value : Option Token) :
    Option (Except ParseError UnaryOperator) :=
  match value with
  | some token => some (UnaryOperator.tryFromToken token)
  | none => none

/-- `impl TryFrom<Token> for Literal` from `expressions.rs`. -/
def Literal.tryFromToken (value : Token) : Except ParseError Literal :=
  match value.kindOf with
  | .Identifier s => .ok ⟨value.location, String.mk s⟩
  | .QuotedIdentifier s => .ok ⟨value.location, String.mk s⟩
  | .NumberLiteral s => .ok ⟨value.location, String.mk s⟩
  | .StringLiteral s => .ok ⟨value.location, String.mk s⟩
  | .LocalVariable s => .ok ⟨value.location, String.mk s⟩
  | _ => .error ⟨.ExpectedKeyword⟩

/-- `impl TryFrom<Option<Token>> for Literal`: `unreachable!()` on `None`.
-/
def Literal.tryFromOptionToken (value : Option Token) :
    Option (Except ParseError Literal) :=
  match value with
  | some token => some (Literal.tryFromToken token)
  | none => none

/-- `impl TryFrom<Token> for Expression` from `expressions.rs`. -/
def Expression.tryFromToken (value : Token) :
    Except ParseError Expression :=
  match value.kindOf with
  | .Identifier _ => (Literal.tryFromToken value).map .Identifier
  | .QuotedIdentifier _ => (Literal.tryFromToken value).map .QuotedIdentifier
  | .NumberLiteral _ => (Literal.tryFromToken value).map .NumberLiteral
  | .StringLiteral _ => (Literal.tryFromToken value).map .StringLiteral
  | .LocalVariable _ => (Literal.tryFromToken value).map .LocalVariable
  | .Asterisk => .ok .Asterisk
  | _ => .error ⟨.ExpectedKeyword⟩

/-- `impl TryFrom<Option<Token>> for Expression`: `unreachable!()` on
`None`. -/
def Expression.tryFromOptionToken (value : Option Token) :
    Option (Except ParseError Expression) :=
  match value with
  | some token => some (Expression.tryFromToken token)
  | none => none

end NewAst

/-! ## Definitions used only to state the theorems -/

/-- Every adjacent pair of spellings is in strictly increasing
lexicographic byte order. -/
def sortedStrictB : List String → Bool
  | [] => true
  | [_] => true
  | a :: b :: rest =>
    (strBytesCmp a.toList b.toList == Ordering.lt) &&
      sortedStrictB (b :: rest)

/-- The sortedness invariant the source comment above `define_keywords!`
claims ("this has this be sorted alphabetically") and binary search
requires. -/
@[reducible] def keywordTableSorted : Prop :=
  sortedStrictB ALL_KEYWORDS = true

namespace NewLex

/-- The input text covered by a span list under the *half-open* reading
`[start, end)` that the spec assigns to spans, concatenated in order. -/
def coveredHalfOpen (input : List Char) (toks : List Token) : List Char :=
  (toks.map
    (fun t =>
      (input.drop t.span.start).take (t.span.stop - t.span.start))).flatten

/-- The input with whitespace removed. -/
def nonWhitespaceChars (input : List Char) : List Char :=
  input.filter (fun c => ¬ rustIsWhitespace c)

/-- Position `i` lies inside the *inclusive* range `[start, end]` of some
produced span. -/
def coveredIncl (toks : List Token) (i : Nat) : Prop :=
  ∃ t ∈ toks, t.span.start ≤ i ∧ i ≤ t.span.stop

end NewLex

namespace Old

/-- An identifier token of the older generation. -/
def identTok (s : String) : Token := ⟨.Ident, .Str s⟩

/-- A keyword token of the older generation. -/
def kwTok (k : Tsql.Keyword) : Token := ⟨.Keyword k, .Str ""⟩

/-- An operator/punctuation token of the older generation. -/
def opTok (k : Kind) : Token := ⟨k, .Str ""⟩

/-- The C7 invariant on a parse result: whenever a `SelectStatement` comes
back, its `fetch` is `Some` only if its `offset` is, and its `offset` is
`Some` only if its `order_by` list is non-empty. -/
def selectFetchOffsetInv : Option Statement → Prop
  | some (.Select s) =>
    (s.fetch ≠ none → s.offset ≠ none) ∧
      (s.offset ≠ none → s.order_by ≠ [])
  | none => True

end Old

/-! ## Theorems -/

/-- **C10.**  For every `Keyword` value, the `Display` implementation
returns `Err(fmt::Error)` even though the spelling is found and written
(shown at `SELECT`), so formatting a `Keyword` through the standard
formatting machinery never succeeds. -/
theorem keyword_display_always_fails :
    (∀ k : Keyword, (Keyword.fmtDisplay k).ok = false) ∧
      (Keyword.fmtDisplay Keyword.SELECT).written = "SELECT" := by
  refine ⟨fun k => rfl, by decide⟩

/-- **C1** (evidence).  `DEGREES` is in the reserved-word vocabulary, yet
`lookup_keyword` misses it, because the table violates the sortedness
invariant its own comment claims (`DEGREES` is listed before `DEFAULT`,
`INTERSECT` before `INT`, `VARCHAR` before `VAR`). -/
theorem keyword_lookup_misses_degrees :
    "DEGREES" ∈ ALL_KEYWORDS ∧ lookup_keyword "DEGREES".toList = none ∧
      ¬ keywordTableSorted := by
  decide

/-- **C8.**  On the one-character input `"é"` — valid UTF-8 whose first
token contains a multi-byte character — the lexer panics (models as
`none`): `read_identifier` slices `input[0..1]`, and byte index 1 falls
inside the two-byte encoding of `é`. -/
theorem lexer_panics_on_multibyte_input :
    NewLex.next_lex ['é'] 0 = none ∧ NewLex.lexTokens ['é'] = none := by
  decide

/-- **C3** (evidence).  The two-character operator arms never consume the
second character: `"!="` lexes as `BangEqual` followed by a spurious
`Equal`, and `"<>"` as `LessThanGreaterThan` followed by a spurious
`GreaterThan`, instead of one token each. -/
theorem two_char_operator_keeps_second_char :
    NewLex.lexTokens "!=".toList =
      some [⟨.BangEqual, Span.new 0 0⟩, ⟨.Equal, Span.new 1 1⟩] ∧
    NewLex.lexTokens "<>".toList =
      some [⟨.LessThanGreaterThan, Span.new 0 0⟩,
        ⟨.GreaterThan, Span.new 1 1⟩] := by
  decide

/-- **C2** (counterexample).  On input `"a"` the lexer produces the single
token `Identifier "a"` with span `(0, 0)`; under the claim's half-open
reading that span covers no characters at all, so concatenating the
covered text does not reproduce the input with whitespace removed. -/
theorem half_open_span_coverage_fails_on_a :
    NewLex.lexTokens "a".toList =
      some [⟨.Identifier ['a'], Span.new 0 0⟩] ∧
    NewLex.coveredHalfOpen "a".toList
        [⟨.Identifier ['a'], Span.new 0 0⟩] ≠
      NewLex.nonWhitespaceChars "a".toList := by
  decide

/-- **C6** (evidence).  A `<` comparison token converts to
`ComparisonOperatorKind::LessThan`, but that kind renders as `"<="`, not
the `"<"` the token was parsed from — the `Display` arm is a copy of the
`LessThanEqual` arm — so rendering does not reproduce the construct's
original spelling. -/
theorem less_than_renders_as_less_equal :
    NewAst.ComparisonOperator.tryFromToken ⟨.LessThan, Span.new 0 0⟩ =
      .ok ⟨Span.new 0 0, .LessThan⟩ ∧
    NewAst.ComparisonOperatorKind.display .LessThan = "<=" ∧
    NewAst.TokenKind.display .LessThan = some "<" ∧
    NewAst.ComparisonOperatorKind.display .LessThan ≠ "<" := by
  decide

/-- **C9.**  Every `TryFrom<Option<Token>>` conversion of the newer AST —
`ComparisonOperator`, `ArithmeticOperator`, `UnaryOperator`, `Literal`,
`Expression` — hits `unreachable!()` (a panic, modelled `none`) on the
`None` input instead of returning a `ParseError`. -/
theorem try_from_none_panics :
    NewAst.ComparisonOperator.tryFromOptionToken none = none ∧
    NewAst.ArithmeticOperator.tryFromOptionToken none = none ∧
    NewAst.UnaryOperator.tryFromOptionToken none = none ∧
    NewAst.Literal.tryFromOptionToken none = none ∧
    NewAst.Expression.tryFromOptionToken none = none := by
  exact ⟨rfl, rfl, rfl, rfl, rfl⟩

/-- The `order_by` list a successful `order_by_loop` returns is never
empty: the validate block after the loop rejects `(0, _)` and `(_, false)`.
-/
theorem order_by_loop_ne_nil (fuel : Nat) :
    ∀ (p : Old.Parser) (args : List Old.OrderByArg) (seen : Bool)
      (out : List Old.OrderByArg) (p' : Old.Parser),
      Old.order_by_loop fuel p args seen = (some out, p') → out ≠ [] := by
  induction fuel with
  | zero =>
    intro p args seen out p' h
    simp [Old.order_by_loop] at h
  | succ fuel ih =>
    intro p args seen out p' h
    unfold Old.order_by_loop at h
    dsimp only at h
    split at h
    · split at h
      · exact ih _ _ _ _ _ h
      · split at h
        · exact ih _ _ _ _ _ h
        · simp at h
    · split at h
      · simp at h
      · simp at h
      · rename_i n heq
        obtain ⟨h1, -⟩ := Prod.mk.injEq .. ▸ h
        obtain rfl := Option.some.injEq .. ▸ h1.symm
        intro hnil
        rw [hnil] at heq
        simp at heq

/-- A successful `parse_order_by_args` returns a non-empty list. -/
theorem parse_order_by_args_ne_nil (fuel : Nat) (p : Old.Parser)
    (out : List Old.OrderByArg) (p' : Old.Parser)
    (h : Old.parse_order_by_args fuel p = (some out, p')) : out ≠ [] := by
  match fuel with
  | 0 => simp [Old.parse_order_by_args] at h
  | fuel + 1 =>
    unfold Old.parse_order_by_args at h
    split at h
    · simp at h
    · exact order_by_loop_ne_nil fuel _ _ _ _ _ h

/-- The final stage of `parse_select_statement` establishes the C7
invariant: `fetch` is only set inside the branch that set `offset`, which
is only set inside the branch whose `order_by` list came back non-empty.
-/
theorem select_order_establishes_inv (fuel : Nat) (p : Old.Parser)
    (d : Bool) (t : Option Old.TopArg) (c : List Old.SelectItem)
    (i : Option Old.IntoArg) (tb : List Old.Expression)
    (w : Option Old.Expression) (g : List Old.Expression)
    (hv : Option Old.Expression) :
    Old.selectFetchOffsetInv
      (Old.select_order fuel p d t c i tb w g hv).1 := by
  match fuel with
  | 0 => simp [Old.select_order, Old.selectFetchOffsetInv]
  | fuel + 1 =>
    unfold Old.select_order
    dsimp only
    split
    · split
      · simp [Old.selectFetchOffsetInv]
      · rename_i args p2 horder
        split
        · split
          · simp [Old.selectFetchOffsetInv]
          · rename_i off p3 hoff
            split
            · split
              · simp [Old.selectFetchOffsetInv]
              · simp only [Old.selectFetchOffsetInv, Old.SelectStatement.fetch,
                  Old.SelectStatement.offset, Old.SelectStatement.order_by]
                refine ⟨fun _ => by simp, fun _ => ?_⟩
                exact parse_order_by_args_ne_nil fuel _ _ _ horder
            · simp only [Old.selectFetchOffsetInv, Old.SelectStatement.fetch,
                Old.SelectStatement.offset, Old.SelectStatement.order_by]
              refine ⟨by simp, fun _ => ?_⟩
              exact parse_order_by_args_ne_nil fuel _ _ _ horder
        · simp [Old.selectFetchOffsetInv, Old.SelectStatement.fetch,
            Old.SelectStatement.offset, Old.SelectStatement.order_by]
    · simp [Old.selectFetchOffsetInv, Old.SelectStatement.fetch,
        Old.SelectStatement.offset, Old.SelectStatement.order_by]

/-- `select_having` only delegates or aborts, so it preserves the C7
invariant. -/
theorem select_having_inv (fuel : Nat) (p : Old.Parser) (d : Bool)
    (t : Option Old.TopArg) (c : List Old.SelectItem)
    (i : Option Old.IntoArg) (tb : List Old.Expression)
    (w : Option Old.Expression) (g : List Old.Expression) :
    Old.selectFetchOffsetInv
      (Old.select_having fuel p d t c i tb w g).1 := by
  match fuel with
  | 0 => exact trivial
  | fuel + 1 =>
    unfold Old.select_having
    dsimp only
    split
    · split
      · try dsimp only
        exact select_order_establishes_inv fuel ..
      · exact trivial
    · exact select_order_establishes_inv fuel ..

/-- `select_group` preserves the C7 invariant. -/
theorem select_group_inv (fuel : Nat) (p : Old.Parser) (d : Bool)
    (t : Option Old.TopArg) (c : List Old.SelectItem)
    (i : Option Old.IntoArg) (tb : List Old.Expression)
    (w : Option Old.Expression) :
    Old.selectFetchOffsetInv (Old.select_group fuel p d t c i tb w).1 := by
  match fuel with
  | 0 => exact trivial
  | fuel + 1 =>
    unfold Old.select_group
    dsimp only
    split
    · split
      · exact select_having_inv fuel ..
      · exact trivial
    · exact select_having_inv fuel ..

/-- `select_where` preserves the C7 invariant. -/
theorem select_where_inv (fuel : Nat) (p : Old.Parser) (d : Bool)
    (t : Option Old.TopArg) (c : List Old.SelectItem)
    (i : Option Old.IntoArg) (tb : List Old.Expression) :
    Old.selectFetchOffsetInv (Old.select_where fuel p d t c i tb).1 := by
  match fuel with
  | 0 => exact trivial
  | fuel + 1 =>
    unfold Old.select_where
    dsimp only
    split
    · split
      · try dsimp only
        exact select_group_inv fuel ..
      · exact trivial
    · exact select_group_inv fuel ..

/-- `select_from` preserves the C7 invariant. -/
theorem select_from_inv (fuel : Nat) (p : Old.Parser) (d : Bool)
    (t : Option Old.TopArg) (c : List Old.SelectItem)
    (i : Option Old.IntoArg) :
    Old.selectFetchOffsetInv (Old.select_from fuel p d t c i).1 := by
  match fuel with
  | 0 => exact trivial
  | fuel + 1 =>
    unfold Old.select_from
    dsimp only
    split
    · split
      · exact trivial
      · split
        · exact trivial
        · exact select_where_inv fuel ..
    · split
      · try dsimp only
        split
        · exact trivial
        · exact select_where_inv fuel ..
      · exact select_where_inv fuel ..

/-- `select_into` preserves the C7 invariant. -/
theorem select_into_inv (fuel : Nat) (p : Old.Parser) (d : Bool)
    (t : Option Old.TopArg) (c : List Old.SelectItem) :
    Old.selectFetchOffsetInv (Old.select_into fuel p d t c).1 := by
  match fuel with
  | 0 => exact trivial
  | fuel + 1 =>
    unfold Old.select_into
    dsimp only
    split
    · split
      · exact trivial
      · try dsimp only
        split
        · split
          · exact trivial
          · exact select_from_inv fuel ..
        · exact select_from_inv fuel ..
    · exact select_from_inv fuel ..

/-- `select_columns` preserves the C7 invariant. -/
theorem select_columns_inv (fuel : Nat) (p : Old.Parser) (d : Bool)
    (t : Option Old.TopArg) :
    Old.selectFetchOffsetInv (Old.select_columns fuel p d t).1 := by
  match fuel with
  | 0 => exact trivial
  | fuel + 1 =>
    unfold Old.select_columns
    split
    · exact select_into_inv fuel ..
    · exact trivial

/-- **C7.**  Whatever the token stream and step budget, when
`parse_select_statement` succeeds the returned `SelectStatement` has
`fetch = Some` only if `offset = Some`, and `offset = Some` only if the
`order_by` list is non-empty: the `FETCH` clause is only reachable after
`ORDER BY` and `OFFSET` have both been parsed. -/
theorem select_statement_fetch_offset_order_inv (fuel : Nat)
    (p : Old.Parser) :
    Old.selectFetchOffsetInv (Old.parse_select_statement fuel p).1 := by
  match fuel with
  | 0 => exact trivial
  | fuel + 1 =>
    unfold Old.parse_select_statement
    dsimp only
    split
    all_goals try dsimp only
    all_goals try split
    all_goals try dsimp only
    all_goals try split
    all_goals try dsimp only
    all_goals try split
    all_goals try dsimp only
    all_goals try split
    all_goals try dsimp only
    all_goals try split
    all_goals try dsimp only
    all_goals try split
    all_goals try dsimp only
    all_goals try split
    all_goals try exact trivial
    all_goals exact select_columns_inv fuel ..

/-- `skip_whitespace_go` never moves the cursor backwards. -/
theorem skip_whitespace_go_ge (input : List Char) :
    ∀ fuel pos, pos ≤ NewLex.skip_whitespace_go input fuel pos := by
  intro fuel
  induction fuel with
  | zero => intro pos; exact Nat.le_refl _
  | succ fuel ih =>
    intro pos
    simp only [NewLex.skip_whitespace_go]
    split
    · split
      · exact Nat.le_trans (Nat.le_succ pos) (ih (pos + 1))
      · exact Nat.le_refl _
    · exact Nat.le_refl _

/-- `skip_whitespace` never moves the cursor backwards. -/
theorem skip_whitespace_ge (input : List Char) (pos : Nat) :
    pos ≤ NewLex.skip_whitespace input pos :=
  skip_whitespace_go_ge input _ pos

/-- Every position `skip_whitespace_go` steps over holds a whitespace
character. -/
theorem skip_whitespace_go_ws (input : List Char) :
    ∀ fuel pos i, pos ≤ i → i < NewLex.skip_whitespace_go input fuel pos →
      ∃ c, input.get? i = some c ∧ NewLex.rustIsWhitespace c := by
  intro fuel
  induction fuel with
  | zero =>
    intro pos i h1 h2
    simp only [NewLex.skip_whitespace_go] at h2
    omega
  | succ fuel ih =>
    intro pos i h1 h2
    simp only [NewLex.skip_whitespace_go] at h2
    split at h2
    · rename_i c hc
      split at h2
      · rename_i hws
        rcases Nat.eq_or_lt_of_le h1 with rfl | hlt
        · exact ⟨c, hc, hws⟩
        · exact ih (pos + 1) i hlt h2
      · omega
    · omega

/-- Every position `skip_whitespace` steps over holds a whitespace
character. -/
theorem skip_whitespace_ws (input : List Char) (pos i : Nat)
    (h1 : pos ≤ i) (h2 : i < NewLex.skip_whitespace input pos) :
    ∃ c, input.get? i = some c ∧ NewLex.rustIsWhitespace c :=
  skip_whitespace_go_ws input _ pos i h1 h2

/-- `read_identifier_end_go` never moves the cursor backwards. -/
theorem read_identifier_end_go_ge (input : List Char) :
    ∀ fuel pos, pos ≤ NewLex.read_identifier_end_go input fuel pos := by
  intro fuel
  induction fuel with
  | zero => intro pos; exact Nat.le_refl _
  | succ fuel ih =>
    intro pos
    simp only [NewLex.read_identifier_end_go]
    split
    · split
      · exact Nat.le_trans (Nat.le_succ pos) (ih (pos + 1))
      · exact Nat.le_refl _
    · exact Nat.le_refl _

/-- `read_identifier_end` never moves the cursor backwards. -/
theorem read_identifier_end_ge (input : List Char) (pos : Nat) :
    pos ≤ NewLex.read_identifier_end input pos :=
  read_identifier_end_go_ge input _ pos

/-- `read_until_go` never moves the cursor backwards. -/
theorem read_until_go_ge (input : List Char) (q : Char) :
    ∀ fuel pos, pos ≤ NewLex.read_until_go input q fuel pos := by
  intro fuel
  induction fuel with
  | zero => intro pos; exact Nat.le_refl _
  | succ fuel ih =>
    intro pos
    simp only [NewLex.read_until_go]
    split
    · split
      · exact Nat.le_trans (Nat.le_succ pos) (ih (pos + 1))
      · exact Nat.le_refl _
    · exact Nat.le_refl _

/-- `read_until` never moves the cursor backwards. -/
theorem read_until_ge (input : List Char) (q : Char) (pos : Nat) :
    pos ≤ NewLex.read_until input q pos :=
  read_until_go_ge input q _ pos

/-- `read_number_end_go` never moves the cursor backwards. -/
theorem read_number_end_go_ge (input : List Char) :
    ∀ fuel pos, pos ≤ NewLex.read_number_end_go input fuel pos := by
  intro fuel
  induction fuel with
  | zero => intro pos; exact Nat.le_refl _
  | succ fuel ih =>
    intro pos
    simp only [NewLex.read_number_end_go]
    split
    · split
      · exact Nat.le_trans (Nat.le_succ pos) (ih (pos + 1))
      · exact Nat.le_refl _
    · exact Nat.le_refl _

/-- `read_number_end` never moves the cursor backwards. -/
theorem read_number_end_ge (input : List Char) (pos : Nat) :
    pos ≤ NewLex.read_number_end input pos :=
  read_number_end_go_ge input _ pos

/-- The comment loop never moves the cursor backwards, and when it stops
anywhere but its entry position the final cursor position holds a
character; when it stops at its entry position the `end` tracker is
untouched. -/
theorem read_comment_loop_go_spec (input : List Char) :
    ∀ fuel pos st en f,
      pos ≤ (NewLex.read_comment_loop_go input fuel pos st en f).1 ∧
        ((input.get?
            (NewLex.read_comment_loop_go input fuel pos st en f).1).isSome ∨
          ((NewLex.read_comment_loop_go input fuel pos st en f).1 = pos ∧
            (NewLex.read_comment_loop_go input fuel pos st en f).2.2.1 =
              en)) := by
  intro fuel
  induction fuel with
  | zero =>
    intro pos st en f
    exact ⟨Nat.le_refl _, Or.inr ⟨rfl, rfl⟩⟩
  | succ fuel ih =>
    intro pos st en f
    simp only [NewLex.read_comment_loop_go]
    split
    · rename_i c hc
      split
      · split
        · obtain ⟨ih1, ih2⟩ :=
            ih (pos + 1) (if f then st else pos + 1) (pos + 1) true
          refine ⟨by omega, ?_⟩
          rcases ih2 with h | ⟨heq, -⟩
          · exact Or.inl h
          · exact Or.inl (by rw [heq, hc]; rfl)
        · obtain ⟨ih1, ih2⟩ := ih (pos + 1) st en f
          refine ⟨by omega, ?_⟩
          rcases ih2 with h | ⟨heq, -⟩
          · exact Or.inl h
          · exact Or.inl (by rw [heq, hc]; rfl)
      · exact ⟨Nat.le_refl _, Or.inr ⟨rfl, rfl⟩⟩
    · exact ⟨Nat.le_refl _, Or.inr ⟨rfl, rfl⟩⟩

/-- `read_comment_loop`, wrapper version of the loop invariant. -/
theorem read_comment_loop_spec (input : List Char) (pos st en : Nat)
    (f : Bool) :
    pos ≤ (NewLex.read_comment_loop input pos st en f).1 ∧
      ((input.get? (NewLex.read_comment_loop input pos st en f).1).isSome ∨
        ((NewLex.read_comment_loop input pos st en f).1 = pos ∧
          (NewLex.read_comment_loop input pos st en f).2.2.1 = en)) :=
  read_comment_loop_go_spec input _ pos st en f

/-- One byte per character: ASCII. -/
theorem csize_ascii {c : Char} (h : c.val < 128) : NewLex.csize c = 1 := by
  unfold NewLex.csize
  rw [if_pos h]

/-- The byte length of an ASCII string is its character count. -/
theorem byteLen_ascii :
    ∀ s : List Char, (∀ c ∈ s, c.val < 128) →
      NewLex.byteLen s = s.length := by
  intro s
  induction s with
  | nil => intro _; rfl
  | cons c s ih =>
    intro h
    have hc : NewLex.csize c = 1 := csize_ascii (h c (by simp))
    simp only [NewLex.byteLen, List.map_cons, List.sum_cons, hc]
    have := ih (fun d hd => h d (by simp [hd]))
    simp only [NewLex.byteLen] at this
    simp [this]
    omega

/-- A successful `takeBytes` never asks for more than the byte length. -/
theorem takeBytes_le_byteLen :
    ∀ (s : List Char) (n : Nat) (out : List Char),
      NewLex.takeBytes s n = some out → n ≤ NewLex.byteLen s := by
  intro s
  induction s with
  | nil =>
    intro n out h
    match n with
    | 0 => exact Nat.zero_le _
    | n + 1 => simp [NewLex.takeBytes] at h
  | cons c s ih =>
    intro n out h
    match n with
    | 0 => exact Nat.zero_le _
    | n + 1 =>
      simp only [NewLex.takeBytes] at h
      split at h
      · rename_i hle
        obtain ⟨out', hout', -⟩ := Option.map_eq_some'.mp h
        have := ih _ _ hout'
        simp only [NewLex.byteLen, List.map_cons, List.sum_cons]
        simp only [NewLex.byteLen] at this
        omega
      · simp at h

/-- A successful `dropBytes` consumes exactly its count in bytes. -/
theorem dropBytes_byteLen :
    ∀ (s : List Char) (a : Nat) (t : List Char),
      NewLex.dropBytes s a = some t →
        NewLex.byteLen s = a + NewLex.byteLen t := by
  intro s
  induction s with
  | nil =>
    intro a t h
    match a with
    | 0 => simp [NewLex.dropBytes] at h; simp [h]
    | a + 1 => simp [NewLex.dropBytes] at h
  | cons c s ih =>
    intro a t h
    match a with
    | 0 =>
      simp only [NewLex.dropBytes, Option.some.injEq] at h
      simp [h]
    | a + 1 =>
      simp only [NewLex.dropBytes] at h
      split at h
      · rename_i hle
        have := ih _ _ h
        simp only [NewLex.byteLen, List.map_cons, List.sum_cons]
        simp only [NewLex.byteLen] at this
        omega
      · simp at h

/-- A successful byte slice ends within the string. -/
theorem byteSlice_le (s : List Char) (a b : Nat) (out : List Char)
    (h : NewLex.byteSlice s a b = some out) : b ≤ NewLex.byteLen s := by
  unfold NewLex.byteSlice at h
  split at h
  · rename_i hab
    obtain ⟨t, hdrop, htake⟩ := Option.bind_eq_some.mp h
    have h1 := dropBytes_byteLen s a t hdrop
    have h2 := takeBytes_le_byteLen t (b - a) out htake
    omega
  · simp at h

/-- Per-token span facts for a successful `next_lex` step: the span is
`Span.new s e` with the cursor start at or before `s`, `s ≤ e`, the next
cursor position exactly `e + 1`, only whitespace strictly before `s`, `s`
past the end for `Eof`, and `e` within the input for every other token
(for ASCII inputs). -/
theorem next_lex_ok_spec (input : List Char)
    (hascii : ∀ c ∈ input, c.val < 128) (pos : Nat) (t : NewLex.Token)
    (p2 : Nat) (h : NewLex.next_lex input pos = some (.ok t, p2)) :
    ∃ s e, t.span = Span.new s e ∧ pos ≤ s ∧ s ≤ e ∧ p2 = e + 1 ∧
      (∀ i, pos ≤ i → i < s →
        ∃ c, input.get? i = some c ∧ NewLex.rustIsWhitespace c) ∧
      (t.kind = .Eof → input.length ≤ s) ∧
      (t.kind ≠ .Eof → e ≤ input.length) := by
  have hblen : NewLex.byteLen input = input.length := byteLen_ascii input hascii
  have hs_ge : pos ≤ NewLex.skip_whitespace input pos :=
    skip_whitespace_ge input pos
  have hs_ws := skip_whitespace_ws input pos
  unfold NewLex.next_lex at h
  dsimp only at h
  generalize hsw : NewLex.skip_whitespace input pos = s at h hs_ge hs_ws
  split at h
  · rename_i hget
    simp only [Option.some.injEq, Prod.mk.injEq, Except.ok.injEq] at h
    obtain ⟨rfl, rfl⟩ := h
    exact ⟨s, s, rfl, hs_ge, Nat.le_refl _, rfl, hs_ws,
      fun _ => List.get?_eq_none.mp hget, fun hne => absurd rfl hne⟩
  · rename_i ch hch
    have hlt : s < input.length := (List.get?_eq_some.mp hch).1
    by_cases hc1 : ch = ','
    · rw [if_pos hc1] at h
      simp only [Option.some.injEq, Prod.mk.injEq, Except.ok.injEq] at h
      obtain ⟨rfl, rfl⟩ := h
      refine ⟨s, s, rfl, hs_ge, Nat.le_refl _, rfl, hs_ws, ?_, ?_⟩
      · intro hk
        exact absurd hk (by simp)
      · intro _
        exact Nat.le_of_lt hlt
    rw [if_neg hc1] at h
    by_cases hc2 : ch = '('
    · rw [if_pos hc2] at h
      simp only [Option.some.injEq, Prod.mk.injEq, Except.ok.injEq] at h
      obtain ⟨rfl, rfl⟩ := h
      refine ⟨s, s, rfl, hs_ge, Nat.le_refl _, rfl, hs_ws, ?_, ?_⟩
      · intro hk
        exact absurd hk (by simp)
      · intro _
        exact Nat.le_of_lt hlt
    rw [if_neg hc2] at h
    by_cases hc3 : ch = ')'
    · rw [if_pos hc3] at h
      simp only [Option.some.injEq, Prod.mk.injEq, Except.ok.injEq] at h
      obtain ⟨rfl, rfl⟩ := h
      refine ⟨s, s, rfl, hs_ge, Nat.le_refl _, rfl, hs_ws, ?_, ?_⟩
      · intro hk
        exact absurd hk (by simp)
      · intro _
        exact Nat.le_of_lt hlt
    rw [if_neg hc3] at h
    by_cases hc4 : ch = '='
    · rw [if_pos hc4] at h
      simp only [Option.some.injEq, Prod.mk.injEq, Except.ok.injEq] at h
      obtain ⟨rfl, rfl⟩ := h
      refine ⟨s, s, rfl, hs_ge, Nat.le_refl _, rfl, hs_ws, ?_, ?_⟩
      · intro hk
        exact absurd hk (by simp)
      · intro _
        exact Nat.le_of_lt hlt
    rw [if_neg hc4] at h
    by_cases hc5 : ch = '!' ∧ input.get? (s + 1) = some '='
    · rw [if_pos hc5] at h
      simp only [Option.some.injEq, Prod.mk.injEq, Except.ok.injEq] at h
      obtain ⟨rfl, rfl⟩ := h
      refine ⟨s, s, rfl, hs_ge, Nat.le_refl _, rfl, hs_ws, ?_, ?_⟩
      · intro hk
        exact absurd hk (by simp)
      · intro _
        exact Nat.le_of_lt hlt
    rw [if_neg hc5] at h
    by_cases hc6 : ch = '<' ∧ input.get? (s + 1) = some '='
    · rw [if_pos hc6] at h
      simp only [Option.some.injEq, Prod.mk.injEq, Except.ok.injEq] at h
      obtain ⟨rfl, rfl⟩ := h
      refine ⟨s, s, rfl, hs_ge, Nat.le_refl _, rfl, hs_ws, ?_, ?_⟩
      · intro hk
        exact absurd hk (by simp)
      · intro _
        exact Nat.le_of_lt hlt
    rw [if_neg hc6] at h
    by_cases hc7 : ch = '>' ∧ input.get? (s + 1) = some '='
    · rw [if_pos hc7] at h
      simp only [Option.some.injEq, Prod.mk.injEq, Except.ok.injEq] at h
      obtain ⟨rfl, rfl⟩ := h
      refine ⟨s, s, rfl, hs_ge, Nat.le_refl _, rfl, hs_ws, ?_, ?_⟩
      · intro hk
        exact absurd hk (by simp)
      · intro _
        exact Nat.le_of_lt hlt
    rw [if_neg hc7] at h
    by_cases hc8 : ch = '<' ∧ input.get? (s + 1) = some '>'
    · rw [if_pos hc8] at h
      simp only [Option.some.injEq, Prod.mk.injEq, Except.ok.injEq] at h
      obtain ⟨rfl, rfl⟩ := h
      refine ⟨s, s, rfl, hs_ge, Nat.le_refl _, rfl, hs_ws, ?_, ?_⟩
      · intro hk
        exact absurd hk (by simp)
      · intro _
        exact Nat.le_of_lt hlt
    rw [if_neg hc8] at h
    by_cases hc9 : ch = '<'
    · rw [if_pos hc9] at h
      simp only [Option.some.injEq, Prod.mk.injEq, Except.ok.injEq] at h
      obtain ⟨rfl, rfl⟩ := h
      refine ⟨s, s, rfl, hs_ge, Nat.le_refl _, rfl, hs_ws, ?_, ?_⟩
      · intro hk
        exact absurd hk (by simp)
      · intro _
        exact Nat.le_of_lt hlt
    rw [if_neg hc9] at h
    by_cases hc10 : ch = '>'
    · rw [if_pos hc10] at h
      simp only [Option.some.injEq, Prod.mk.injEq, Except.ok.injEq] at h
      obtain ⟨rfl, rfl⟩ := h
      refine ⟨s, s, rfl, hs_ge, Nat.le_refl _, rfl, hs_ws, ?_, ?_⟩
      · intro hk
        exact absurd hk (by simp)
      · intro _
        exact Nat.le_of_lt hlt
    rw [if_neg hc10] at h
    by_cases hc11 : ch = '+'
    · rw [if_pos hc11] at h
      simp only [Option.some.injEq, Prod.mk.injEq, Except.ok.injEq] at h
      obtain ⟨rfl, rfl⟩ := h
      refine ⟨s, s, rfl, hs_ge, Nat.le_refl _, rfl, hs_ws, ?_, ?_⟩
      · intro hk
        exact absurd hk (by simp)
      · intro _
        exact Nat.le_of_lt hlt
    rw [if_neg hc11] at h
    by_cases hc12 : ch = '-' ∧ input.get? (s + 1) = some '-'
    · rw [if_pos hc12] at h
      split at h
      · simp at h
      · rename_i sl p2c hcm
        simp only [Option.some.injEq, Prod.mk.injEq, Except.ok.injEq] at h
        obtain ⟨rfl, rfl⟩ := h
        unfold NewLex.read_comment at hcm
        dsimp only at hcm
        obtain ⟨hq_ge, hq_or⟩ :=
          read_comment_loop_spec input (s + 1 + 1) (s + 1 + 1) (s + 1 + 1)
            false
        rcases hr : NewLex.read_comment_loop input (s + 1 + 1) (s + 1 + 1)
            (s + 1 + 1) false with ⟨q, st, en, fb⟩
        rw [hr] at hcm hq_ge hq_or
        dsimp only at hcm hq_ge hq_or
        rw [Prod.mk.injEq] at hcm
        obtain ⟨hslice, rfl⟩ := hcm
        have hen : en + 1 ≤ input.length := by
          have := byteSlice_le input st (en + 1) sl hslice
          omega
        have hqlen : q + 1 ≤ input.length := by
          rcases hq_or with hsome | ⟨rfl, rfl⟩
          · obtain ⟨c', hc'⟩ := Option.isSome_iff_exists.mp hsome
            have := (List.get?_eq_some.mp hc').1
            omega
          · omega
        refine ⟨s, q + 1, rfl, hs_ge, by omega, rfl, hs_ws, ?_, ?_⟩
        · intro hk
          exact absurd hk (by simp)
        · intro _
          exact hqlen
    rw [if_neg hc12] at h
    by_cases hc13 : ch = '-'
    · rw [if_pos hc13] at h
      simp only [Option.some.injEq, Prod.mk.injEq, Except.ok.injEq] at h
      obtain ⟨rfl, rfl⟩ := h
      refine ⟨s, s, rfl, hs_ge, Nat.le_refl _, rfl, hs_ws, ?_, ?_⟩
      · intro hk
        exact absurd hk (by simp)
      · intro _
        exact Nat.le_of_lt hlt
    rw [if_neg hc13] at h
    by_cases hc14 : ch = '/'
    · rw [if_pos hc14] at h
      simp only [Option.some.injEq, Prod.mk.injEq, Except.ok.injEq] at h
      obtain ⟨rfl, rfl⟩ := h
      refine ⟨s, s, rfl, hs_ge, Nat.le_refl _, rfl, hs_ws, ?_, ?_⟩
      · intro hk
        exact absurd hk (by simp)
      · intro _
        exact Nat.le_of_lt hlt
    rw [if_neg hc14] at h
    by_cases hc15 : ch = '*'
    · rw [if_pos hc15] at h
      simp only [Option.some.injEq, Prod.mk.injEq, Except.ok.injEq] at h
      obtain ⟨rfl, rfl⟩ := h
      refine ⟨s, s, rfl, hs_ge, Nat.le_refl _, rfl, hs_ws, ?_, ?_⟩
      · intro hk
        exact absurd hk (by simp)
      · intro _
        exact Nat.le_of_lt hlt
    rw [if_neg hc15] at h
    by_cases hc16 : ch = '%'
    · rw [if_pos hc16] at h
      simp only [Option.some.injEq, Prod.mk.injEq, Except.ok.injEq] at h
      obtain ⟨rfl, rfl⟩ := h
      refine ⟨s, s, rfl, hs_ge, Nat.le_refl _, rfl, hs_ws, ?_, ?_⟩
      · intro hk
        exact absurd hk (by simp)
      · intro _
        exact Nat.le_of_lt hlt
    rw [if_neg hc16] at h
    by_cases hc17 : ch = '.'
    · rw [if_pos hc17] at h
      simp only [Option.some.injEq, Prod.mk.injEq, Except.ok.injEq] at h
      obtain ⟨rfl, rfl⟩ := h
      refine ⟨s, s, rfl, hs_ge, Nat.le_refl _, rfl, hs_ws, ?_, ?_⟩
      · intro hk
        exact absurd hk (by simp)
      · intro _
        exact Nat.le_of_lt hlt
    rw [if_neg hc17] at h
    by_cases hc18 : ch = ';'
    · rw [if_pos hc18] at h
      simp only [Option.some.injEq, Prod.mk.injEq, Except.ok.injEq] at h
      obtain ⟨rfl, rfl⟩ := h
      refine ⟨s, s, rfl, hs_ge, Nat.le_refl _, rfl, hs_ws, ?_, ?_⟩
      · intro hk
        exact absurd hk (by simp)
      · intro _
        exact Nat.le_of_lt hlt
    rw [if_neg hc18] at h
    by_cases hc19 : ch = '[' ∧ (input.get? (s + 1)).any NewLex.rustIsAlphabetic = true
    · rw [if_pos hc19] at h
      split at h
      · simp at h
      · rename_i sl p2q hrq
        simp only [Option.some.injEq, Prod.mk.injEq, Except.ok.injEq] at h
        obtain ⟨rfl, rfl⟩ := h
        unfold NewLex.read_quoted_identifier at hrq
        dsimp only at hrq
        split at hrq
        · rename_i hquote
          split at hrq
          · simp at hrq
          · rename_i sl2 hslice
            simp only [Prod.mk.injEq, Option.some.injEq,
              Except.ok.injEq] at hrq
            obtain ⟨rfl, rfl⟩ := hrq
            have hq_ge := read_until_ge input ']' (s + 1)
            have hql : NewLex.read_until input ']' (s + 1) + 1 <
                input.length := (List.get?_eq_some.mp hquote).1
            refine ⟨s, NewLex.read_until input ']' (s + 1) + 1, rfl,
              hs_ge, by omega, rfl, hs_ws, ?_, ?_⟩
            · intro hk
              exact absurd hk (by simp)
            · intro _
              omega
        · simp at hrq
      · rename_i e2 p2e herr
        simp at h
    rw [if_neg hc19] at h
    by_cases hc20 : ch = '\''
    · rw [if_pos hc20] at h
      split at h
      · simp at h
      · rename_i sl p2q hrq
        simp only [Option.some.injEq, Prod.mk.injEq, Except.ok.injEq] at h
        obtain ⟨rfl, rfl⟩ := h
        unfold NewLex.read_string_literal at hrq
        dsimp only at hrq
        split at hrq
        · rename_i hquote
          split at hrq
          · simp at hrq
          · rename_i sl2 hslice
            simp only [Prod.mk.injEq, Option.some.injEq,
              Except.ok.injEq] at hrq
            obtain ⟨rfl, rfl⟩ := hrq
            have hq_ge := read_until_ge input '\'' (s + 1)
            have hql : NewLex.read_until input '\'' (s + 1) + 1 <
                input.length := (List.get?_eq_some.mp hquote).1
            refine ⟨s, NewLex.read_until input '\'' (s + 1) + 1, rfl,
              hs_ge, by omega, rfl, hs_ws, ?_, ?_⟩
            · intro hk
              exact absurd hk (by simp)
            · intro _
              omega
        · simp at hrq
      · rename_i e2 p2e herr
        simp at h
    rw [if_neg hc20] at h
    by_cases hc21 : ch = '@' ∧ (input.get? (s + 1)).any NewLex.rustIsAlphabetic = true
    · rw [if_pos hc21] at h
      split at h
      · simp at h
      · rename_i sl e2 hid
        simp only [Option.some.injEq, Prod.mk.injEq, Except.ok.injEq] at h
        obtain ⟨rfl, rfl⟩ := h
        unfold NewLex.read_identifier at hid
        dsimp only at hid
        rw [Prod.mk.injEq] at hid
        obtain ⟨hslice, rfl⟩ := hid
        have hge := read_identifier_end_ge input (s + 1)
        have hbound := byteSlice_le input (s + 1)
          (NewLex.read_identifier_end input (s + 1) + 1) sl hslice
        refine ⟨s, NewLex.read_identifier_end input (s + 1), rfl, hs_ge,
          by omega, rfl, hs_ws, ?_, ?_⟩
        · intro hk
          exact absurd hk (by simp)
        · intro _
          omega
    rw [if_neg hc21] at h
    by_cases hc22 : NewLex.rustIsAlphabetic ch = true
    · rw [if_pos hc22] at h
      split at h
      · simp at h
      · rename_i sl e2 hid
        unfold NewLex.read_identifier at hid
        dsimp only at hid
        rw [Prod.mk.injEq] at hid
        obtain ⟨hslice, rfl⟩ := hid
        have hge := read_identifier_end_ge input s
        have hbound := byteSlice_le input s
          (NewLex.read_identifier_end input s + 1) sl hslice
        split at h
        · simp only [Option.some.injEq, Prod.mk.injEq, Except.ok.injEq] at h
          obtain ⟨rfl, rfl⟩ := h
          refine ⟨s, NewLex.read_identifier_end input s, rfl, hs_ge, hge,
            rfl, hs_ws, ?_, ?_⟩
          · intro hk
            exact absurd hk (by simp)
          · intro _
            omega
        · simp only [Option.some.injEq, Prod.mk.injEq, Except.ok.injEq] at h
          obtain ⟨rfl, rfl⟩ := h
          refine ⟨s, NewLex.read_identifier_end input s, rfl, hs_ge, hge,
            rfl, hs_ws, ?_, ?_⟩
          · intro hk
            exact absurd hk (by simp)
          · intro _
            omega
    rw [if_neg hc22] at h
    by_cases hc23 : ch = '_' ∧ (input.get? (s + 1)).any NewLex.rustIsAlphabetic = true
    · rw [if_pos hc23] at h
      split at h
      · simp at h
      · rename_i sl e2 hid
        simp only [Option.some.injEq, Prod.mk.injEq, Except.ok.injEq] at h
        obtain ⟨rfl, rfl⟩ := h
        unfold NewLex.read_identifier at hid
        dsimp only at hid
        rw [Prod.mk.injEq] at hid
        obtain ⟨hslice, rfl⟩ := hid
        have hge := read_identifier_end_ge input s
        have hbound := byteSlice_le input s
          (NewLex.read_identifier_end input s + 1) sl hslice
        refine ⟨s, NewLex.read_identifier_end input s, rfl, hs_ge, hge,
          rfl, hs_ws, ?_, ?_⟩
        · intro hk
          exact absurd hk (by simp)
        · intro _
          omega
    rw [if_neg hc23] at h
    by_cases hc24 : NewLex.rustIsNumeric ch = true
    · rw [if_pos hc24] at h
      split at h
      · simp at h
      · rename_i sl e2 hnum
        simp only [Option.some.injEq, Prod.mk.injEq, Except.ok.injEq] at h
        obtain ⟨rfl, rfl⟩ := h
        unfold NewLex.read_number_literal at hnum
        dsimp only at hnum
        split at hnum
        · rw [Prod.mk.injEq] at hnum
          obtain ⟨hslice, rfl⟩ := hnum
          have hge1 := read_number_end_ge input s
          have hge2 := read_number_end_ge input
            (NewLex.read_number_end input s + 1)
          have hbound := byteSlice_le input s
            (NewLex.read_number_end input
              (NewLex.read_number_end input s + 1) + 1) sl hslice
          refine ⟨s, NewLex.read_number_end input
            (NewLex.read_number_end input s + 1), rfl, hs_ge, by omega, rfl,
            hs_ws, ?_, ?_⟩
          · intro hk
            exact absurd hk (by simp)
          · intro _
            omega
        · rw [Prod.mk.injEq] at hnum
          obtain ⟨hslice, rfl⟩ := hnum
          have hge1 := read_number_end_ge input s
          have hbound := byteSlice_le input s
            (NewLex.read_number_end input s + 1) sl hslice
          refine ⟨s, NewLex.read_number_end input s, rfl, hs_ge, hge1,
            rfl, hs_ws, ?_, ?_⟩
          · intro hk
            exact absurd hk (by simp)
          · intro _
            omega
    rw [if_neg hc24] at h
    simp at h


/-- Invariant of the token-collection loop: from cursor position `pos`, an
error-free run yields tokens whose spans start at or after `pos`, are
well-formed and in-bounds, strictly increase, and cover every
non-whitespace position from `pos` on. -/
theorem lex_ok_tokens_spec (input : List Char)
    (hascii : ∀ c ∈ input, c.val < 128) (hlen : input.length < 2 ^ 32) :
    ∀ fuel pos toks, NewLex.lex_ok_tokens input fuel pos = some toks →
      (∀ t ∈ toks, pos ≤ t.span.start ∧ t.span.start ≤ t.span.stop ∧
        t.span.stop ≤ input.length) ∧
      List.Chain' (fun a b => a.span.stop < b.span.start) toks ∧
      (∀ i, pos ≤ i → i < input.length →
        (∀ t ∈ toks, ¬ (t.span.start ≤ i ∧ i ≤ t.span.stop)) →
        ∃ c, input.get? i = some c ∧ NewLex.rustIsWhitespace c) := by
  intro fuel
  induction fuel with
  | zero =>
    intro pos toks h
    simp [NewLex.lex_ok_tokens] at h
  | succ fuel ih =>
    intro pos toks h
    simp only [NewLex.lex_ok_tokens] at h
    split at h
    · simp at h
    · simp at h
    · rename_i t p2 hnext
      obtain ⟨s, e, hspan, hpos_s, hse, hp2, hws, heof, hne⟩ :=
        next_lex_ok_spec input hascii pos t p2 hnext
      split at h
      · rename_i hkind
        simp only [Option.some.injEq] at h
        subst h
        have hs_len : input.length ≤ s := heof hkind
        refine ⟨by simp, by simp, ?_⟩
        intro i hi hilen _
        exact hws i hi (by omega)
      · rename_i hkind
        obtain ⟨rest, hrest, rfl⟩ := Option.map_eq_some'.mp h
        have hkne : t.kind ≠ NewLex.TokenKind.Eof := by
          intro habs
          exact hkind habs
        have he_len : e ≤ input.length := hne hkne
        have hstart : t.span.start = s := by
          rw [hspan]
          simp only [Span.new]
          exact Nat.mod_eq_of_lt (by omega)
        have hstop : t.span.stop = e := by
          rw [hspan]
          simp only [Span.new]
          exact Nat.mod_eq_of_lt (by omega)
        obtain ⟨ih1, ih2, ih3⟩ := ih p2 rest hrest
        refine ⟨?_, ?_, ?_⟩
        · intro t' ht'
          rcases List.mem_cons.mp ht' with rfl | hmem
          · rw [hstart, hstop]
            exact ⟨hpos_s, hse, he_len⟩
          · obtain ⟨h1, h2, h3⟩ := ih1 t' hmem
            exact ⟨by omega, h2, h3⟩
        · rw [List.chain'_cons']
          refine ⟨?_, ih2⟩
          intro hd hhd
          have hmem : hd ∈ rest := List.mem_of_mem_head? hhd
          obtain ⟨h1, -, -⟩ := ih1 hd hmem
          rw [hstop]
          omega
        · intro i hi hilen hunc
          by_cases hlt_s : i < s
          · exact hws i hi hlt_s
          · by_cases hle_e : i ≤ e
            · exfalso
              apply hunc t (by simp)
              rw [hstart, hstop]
              omega
            · refine ih3 i (by omega) hilen ?_
              intro t' ht'
              exact hunc t' (List.mem_cons_of_mem _ ht')

/-- **C2** (amended).  For every ASCII input shorter than `2^32` on which
the lexer runs to `Eof` without error or panic: every produced span
satisfies `start ≤ end ≤ input.length`, successive spans never overlap and
never go backwards (each span ends strictly before the next begins), and
every input position not covered by any span — reading each span as the
*inclusive* range `[start, end]` of the token's source text — holds a
whitespace character.  Concatenating the covered characters therefore
reproduces the input with the uncovered (whitespace) characters removed.
-/
theorem lexer_spans_monotone_and_cover (input : List Char)
    (hascii : ∀ c ∈ input, c.val < 128) (hlen : input.length < 2 ^ 32)
    (toks : List NewLex.Token) (h : NewLex.lexTokens input = some toks) :
    (∀ t ∈ toks, t.span.start ≤ t.span.stop ∧
      t.span.stop ≤ input.length) ∧
    List.Chain' (fun a b => a.span.stop < b.span.start) toks ∧
    (∀ i, i < input.length → ¬ NewLex.coveredIncl toks i →
      ∃ c, input.get? i = some c ∧ NewLex.rustIsWhitespace c) := by
  obtain ⟨h1, h2, h3⟩ :=
    lex_ok_tokens_spec input hascii hlen (input.length + 2) 0 toks h
  refine ⟨?_, h2, ?_⟩
  · intro t ht
    obtain ⟨-, hb, hc⟩ := h1 t ht
    exact ⟨hb, hc⟩
  · intro i hilen hunc
    refine h3 i (Nat.zero_le _) hilen ?_
    intro t ht habs
    exact hunc ⟨t, ht, habs⟩

/-- Witness for the amended C2 theorem at the concrete input `"a b"`:
both hypotheses hold and the three conclusions follow by applying the
theorem there. -/
theorem lexer_spans_monotone_and_cover_witness :
    (∀ t ∈ [(⟨.Identifier ['a'], Span.new 0 0⟩ : NewLex.Token),
        ⟨.Identifier ['b'], Span.new 2 2⟩],
      t.span.start ≤ t.span.stop ∧ t.span.stop ≤ "a b".toList.length) ∧
    List.Chain' (fun a b => a.span.stop < b.span.start)
      [(⟨.Identifier ['a'], Span.new 0 0⟩ : NewLex.Token),
        ⟨.Identifier ['b'], Span.new 2 2⟩] ∧
    (∀ i, i < "a b".toList.length →
      ¬ NewLex.coveredIncl
        [(⟨.Identifier ['a'], Span.new 0 0⟩ : NewLex.Token),
          ⟨.Identifier ['b'], Span.new 2 2⟩] i →
      ∃ c, "a b".toList.get? i = some c ∧ NewLex.rustIsWhitespace c) :=
  lexer_spans_monotone_and_cover "a b".toList (by decide) (by decide)
    [⟨.Identifier ['a'], Span.new 0 0⟩, ⟨.Identifier ['b'], Span.new 2 2⟩]
    (by decide)

/-- **C4.**  For all operand identifiers, `a OR b AND c` parses as an `OR`
whose right operand is the `AND` of `b` and `c`, and `a = b AND c = d`
parses as an `AND` of the two comparisons: `OR` binds below `AND`, which
binds below the comparison operators. -/
theorem or_binds_below_and_below_comparison (a b c d : String) :
    (Old.parse_expression 32 (Old.Parser.new
        [Old.identTok a, Old.kwTok .OR, Old.identTok b, Old.kwTok .AND,
          Old.identTok c]) Old.PRECEDENCE_LOWEST).1 =
      some (.Binary (.Literal (Old.identTok a)) (Old.kwTok .OR)
        (.Binary (.Literal (Old.identTok b)) (Old.kwTok .AND)
          (.Literal (Old.identTok c)))) ∧
    (Old.parse_expression 32 (Old.Parser.new
        [Old.identTok a, Old.opTok .Equal, Old.identTok b, Old.kwTok .AND,
          Old.identTok c, Old.opTok .Equal, Old.identTok d])
        Old.PRECEDENCE_LOWEST).1 =
      some (.Binary
        (.Binary (.Literal (Old.identTok a)) (Old.opTok .Equal)
          (.Literal (Old.identTok b)))
        (Old.kwTok .AND)
        (.Binary (.Literal (Old.identTok c)) (Old.opTok .Equal)
          (.Literal (Old.identTok d)))) := by
  exact ⟨rfl, rfl⟩

/-- **C5.**  Equal-precedence operators group to the left: `a - b - c`
parses as a binary node whose left child is `a - b` and whose right child
is `c`, because the climbing loop's strict `<` comparison refuses to absorb
a same-precedence sibling into the right operand. -/
theorem minus_left_associative (a b c : String) :
    (Old.parse_expression 32 (Old.Parser.new
        [Old.identTok a, Old.opTok .Minus, Old.identTok b, Old.opTok .Minus,
          Old.identTok c]) Old.PRECEDENCE_LOWEST).1 =
      some (.Binary
        (.Binary (.Literal (Old.identTok a)) (Old.opTok .Minus)
          (.Literal (Old.identTok b)))
        (Old.opTok .Minus)
        (.Literal (Old.identTok c))) := by
  exact rfl

end Tsql
